import Mathlib

/-!
# gobol: snitch (metrics engine) and files (directory scanner)

A shallow embedding of `snitch/snitch.go` and `files/scanner.go`.

* Go maps are reference values: a map lives in a `Heap` cell and is held as the list of
  its entries in enumeration order.
* `go f()` statements are recorded as the list of tasks a function spawns.
* The transport loops are small-step machines: the loop is either at the top of its `for`
  body (about to test the terminate flag), blocked in its receive, or has returned.
  Everything the outside world decides (dial and write outcomes, responses) comes with the
  action that triggers it.
-/

set_option autoImplicit false

namespace snitch

/-! ## Go maps and the heap -/

/-- The entries of a Go `map[string]string`, in the order `range` enumerates them. -/
abbrev TagMap := List (String × String)

/-- Go `m[k]`: the zero value when the key is absent. -/
def TagMap.index (m : TagMap) (k : String) : String :=
  (m.lookup k).getD ""

/-- Go `m[k] = v`: overwrite the entry of `k`, or add one. -/
def TagMap.assign : TagMap → String → String → TagMap
  | [], k, v => [(k, v)]
  | (k0, v0) :: rest, k, v =>
    if k0 = k then (k, v) :: rest else (k0, v0) :: TagMap.assign rest k v

/-- The keys of a map value are pairwise distinct. -/
def TagMap.WF (m : TagMap) : Prop :=
  (m.map Prod.fst).Nodup

instance (m : TagMap) : Decidable m.WF := by
  unfold TagMap.WF; infer_instance

/-- The maps allocated so far; a map reference is an index into `maps`. -/
structure Heap where
  maps : List TagMap
deriving DecidableEq, Repr

/-- Go `map[string]string{}`: a fresh empty map and its reference. -/
def Heap.make (h : Heap) : Heap × Nat :=
  (⟨h.maps ++ [[]]⟩, h.maps.length)

/-- The map value a reference points to. -/
def Heap.deref (h : Heap) (r : Nat) : TagMap :=
  h.maps.getD r []

/-- Go `m[k] = v` through the reference `r`. -/
def Heap.assign (h : Heap) (r : Nat) (k v : String) : Heap :=
  ⟨h.maps.set r ((h.deref r).assign k v)⟩

/-- The entries `range m` enumerates; a nil map has none. -/
def Heap.entries (h : Heap) : Option Nat → TagMap
  | none => []
  | some r => h.deref r

/-! ## Settings, Stats and New -/

/-- Modelled from the spec: the `Settings` type declaration is not among the sources; these
are the fields `New` reads (backend address, port, protocol, HTTP timeout, HTTP flush
period, default tag set, debug-verbosity flag, runtime-monitor flag). `Tags` is a map
reference, `none` being the nil map. -/
structure Settings where
  Address : String
  Port : Int
  Protocol : String
  HTTPTimeout : String
  HTTPPostInterval : String
  Tags : Option Nat
  Runtime : Bool
  RaiseDebugVerbosity : Bool
deriving DecidableEq, Repr

/-- The data fields of `Stats` (logger, mutex and channel carry no data of their own).
`points` lists the schedule intervals of the registered points, `tags` is a map
reference. -/
structure Stats (μ : Type) where
  address : String
  port : Int
  tags : Nat
  proto : String
  timeout : Int
  postInt : Int
  points : List String
  hBuffer : List μ
  raiseDebugVerbosity : Bool
  terminate : Bool
deriving DecidableEq, Repr

/-- Background activity: a task started with `go`, or a call that makes the cron library
start one. -/
inductive Activity where
  | goStart (runtime : Bool)
  | cronAddJob (interval : String)
  | goClientUDP
  | goClientHTTP
  | cronStart
  | goRuntimeLoop
deriving DecidableEq, Repr

/-- What `New` leaves behind: the returned pair `(*Stats, error)`, the tasks it spawned and
the heap. -/
structure NewResult (μ : Type) where
  stats : Option (Stats μ)
  err : Option String
  spawned : List Activity
  heap : Heap
deriving DecidableEq, Repr

/-- The `return nil, err` exits of `New`. -/
def NewResult.fail {μ : Type} (heap : Heap) (e : String) : NewResult μ :=
  { stats := none, err := some e, spawned := [], heap := heap }

/-- Lines 54-65 of `New`: both durations stay zero unless the protocol is http. -/
def parseHTTPDurations (parseDuration : String → Except String Int) (settings : Settings) :
    Except String (Int × Int) :=
  if settings.Protocol = "http" then
    match parseDuration settings.HTTPTimeout with
    | .error e => .error e
    | .ok dur =>
      match parseDuration settings.HTTPPostInterval with
      | .error e => .error e
      | .ok postInt => .ok (dur, postInt)
  else .ok (0, 0)

/-- Lines 67-70 of `New`: `tags := map[string]string{}` followed by the copying loop. -/
def copyTags (heap : Heap) (src : Option Nat) : Heap × Nat :=
  let fresh := heap.make
  ((heap.entries src).foldl (fun h kv => h.assign fresh.2 kv.1 kv.2) fresh.1, fresh.2)

/-- `New`. `parseDuration` stands for `time.ParseDuration` and `hostname` for the outcome of
`os.Hostname()`. -/
def New {μ : Type} (parseDuration : String → Except String Int) (hostname : Except String String)
    (heap : Heap) (settings : Settings) : NewResult μ :=
  if settings.Address = "" then NewResult.fail heap "address is required"
  else if settings.Port = 0 then NewResult.fail heap "port is required"
  else if settings.Protocol ≠ "http" ∧ settings.Protocol ≠ "udp" then
    NewResult.fail heap "protocol supported: udp and http"
  else
    match parseHTTPDurations parseDuration settings with
    | .error e => NewResult.fail heap e
    | .ok (dur, postInt) =>
      let copied := copyTags heap settings.Tags
      let tags := copied.2
      if (copied.1.deref tags).index "ksid" = "" then
        NewResult.fail copied.1 "tag ksid is mandatory"
      else
        match hostname with
        | .error e => NewResult.fail copied.1 e
        | .ok name =>
          { stats := some
              { address := settings.Address
                port := settings.Port
                proto := settings.Protocol
                timeout := dur
                postInt := postInt
                tags := tags
                points := []
                hBuffer := []
                raiseDebugVerbosity := settings.RaiseDebugVerbosity
                terminate := false }
            err := none
            spawned := [Activity.goStart settings.Runtime]
            heap := copied.1.assign tags "host" name }

/-- `Stats.Terminate`. -/
def Terminate {μ : Type} (st : Stats μ) : Stats μ :=
  { st with terminate := true }

/-- `Stats.start`: the activity it launches, in program order. -/
def start {μ : Type} (st : Option (Stats μ)) (runtime : Bool) : List Activity :=
  match st with
  | none => []
  | some s =>
    s.points.map Activity.cronAddJob
      ++ [if s.proto = "udp" then Activity.goClientUDP else Activity.goClientHTTP]
      ++ [Activity.cronStart]
      ++ (if runtime then [Activity.goRuntimeLoop] else [])

/-- Everything running in the background once `New` has returned and the tasks it spawned
have run their own launch code. -/
def backgroundAfterNew {μ : Type} (r : NewResult μ) : List Activity :=
  r.spawned ++ r.spawned.flatMap (fun a =>
    match a with
    | Activity.goStart runtime => start r.stats runtime
    | _ => [])

/-! ## Transport loops -/

/-- Where a transport loop stands: at the top of its `for` body, blocked in its receive or
select, returned, or stopped by a panic. -/
inductive PC where
  | top
  | waiting
  | exited
  | crashed
deriving DecidableEq, Repr

/-- Serialized bytes; the nil slice is the empty list. -/
abbrev Bytes := List Nat

/-- What a transport loop does that can be seen from outside. `recv` marks a message taken
from the channel, `write` a `conn.Write` call (with the message the payload came from),
`post` a `client.Do` call (with the batch the payload came from). A `post` is the call, not
what it puts on the wire: the client of `clientHTTP` has no `CheckRedirect` and the body is
a `bytes.Buffer`, so a call that is answered 307 or 308 sends the POST again. -/
inductive Effect (μ : Type) where
  | recv (m : μ)
  | dial (ok : Bool)
  | write (m : μ) (payload : Bytes) (ok : Bool)
  | post (batch : List μ) (payload : Bytes)
  | closeConn (id : Nat)
  | closeBody
  | logError (what : String)
  | logInfo (what : String)
  | logDebug (what : String)
deriving DecidableEq, Repr

/-- A send call: one `conn.Write` call or one `client.Do` call. This counts calls, not
requests on the wire: one `client.Do` call follows redirects and may send the POST more
than once. -/
def Effect.isSendCall {μ : Type} : Effect μ → Bool
  | Effect.write _ _ _ => true
  | Effect.post _ _ => true
  | _ => false

/-- A dial attempt. -/
def Effect.isDial {μ : Type} : Effect μ → Bool
  | Effect.dial _ => true
  | _ => false

/-- The messages taken from the channel, in order. -/
def received {μ : Type} : List (Effect μ) → List μ
  | [] => []
  | Effect.recv m :: rest => m :: received rest
  | _ :: rest => received rest

/-- The messages handed to `conn.Write`, in order. -/
def written {μ : Type} : List (Effect μ) → List μ
  | [] => []
  | Effect.write m _ _ :: rest => m :: written rest
  | _ :: rest => written rest

/-- The error log entries, in order. -/
def logged {μ : Type} : List (Effect μ) → List String
  | [] => []
  | Effect.logError what :: rest => what :: logged rest
  | _ :: rest => logged rest

/-- The batches handed to `client.Do`, with their payloads, in order. -/
def posted {μ : Type} : List (Effect μ) → List (List μ × Bytes)
  | [] => []
  | Effect.post b p :: rest => (b, p) :: posted rest
  | _ :: rest => posted rest

/-- An open connection. -/
structure Conn where
  id : Nat
deriving DecidableEq, Repr

/-- What the network answers while one message is handled by `clientUDP`: the error of
`conn.Write` if any, and the outcome of `net.Dial`. -/
structure UDPEnv where
  writeErr : Option String
  dial : Except String Conn

/-- State of the `clientUDP` task: the shared `Stats`, the local `conn` and the pending
`defer conn.Close()` calls. -/
structure UDPLoop (μ : Type) where
  pc : PC
  stats : Stats μ
  conn : Option Conn
  deferred : List Conn
deriving DecidableEq, Repr

/-- One atomic action of a `clientUDP` execution: another task calls `Terminate`, the loop
tests the flag, or the loop receives a message and handles it. -/
inductive UDPAction (μ : Type) where
  | setTerminate
  | check
  | recv (m : μ) (env : UDPEnv)

/-- Go `conn.Write(payload)`: a nil `conn` is a nil dereference. -/
def connWrite (conn : Option Conn) (writeErr : Option String) : Except Unit (Option String) :=
  match conn with
  | none => .error ()
  | some _ => .ok writeErr

/-- Lines 151-156 of `clientUDP`: the dial made before the loop is entered. -/
def clientUDPInit {μ : Type} (st : Stats μ) (dial : Except String Conn) :
    UDPLoop μ × List (Effect μ) :=
  match dial with
  | .error _ =>
    ({ pc := PC.top, stats := st, conn := none, deferred := [] },
      [Effect.dial false, Effect.logError "connect"])
  | .ok c =>
    ({ pc := PC.top, stats := st, conn := some c, deferred := [c] }, [Effect.dial true])

/-- Lines 164-182 of `clientUDP`: a message has been received. -/
def clientUDPHandle {μ : Type} (marshal : μ → Except String Bytes) (m : μ) (env : UDPEnv)
    (st : UDPLoop μ) : UDPLoop μ × List (Effect μ) :=
  let marshalled : Bytes × List (Effect μ) :=
    match marshal m with
    | .error _ => ([], [Effect.logError "marshal"])
    | .ok p => (p, [])
  if st.conn.isSome then
    match connWrite st.conn env.writeErr with
    | .error _ => ({ st with pc := PC.crashed }, [Effect.recv m] ++ marshalled.2)
    | .ok none =>
      ({ st with pc := PC.top },
        [Effect.recv m] ++ marshalled.2 ++ [Effect.write m marshalled.1 true])
    | .ok (some _) =>
      ({ st with pc := PC.top },
        [Effect.recv m] ++ marshalled.2
          ++ [Effect.write m marshalled.1 false, Effect.logError "write"])
  else
    match env.dial with
    | .error _ =>
      ({ st with pc := PC.top, conn := none },
        [Effect.recv m] ++ marshalled.2 ++ [Effect.dial false, Effect.logError "connect"])
    | .ok c =>
      ({ st with pc := PC.top, conn := some c, deferred := c :: st.deferred },
        [Effect.recv m] ++ marshalled.2 ++ [Effect.dial true])

/-- One action of a `clientUDP` execution. An action the loop is not ready for leaves the
state as it is. -/
def clientUDPStep {μ : Type} (marshal : μ → Except String Bytes) (a : UDPAction μ)
    (st : UDPLoop μ) : UDPLoop μ × List (Effect μ) :=
  match a with
  | UDPAction.setTerminate => ({ st with stats := Terminate st.stats }, [])
  | UDPAction.check =>
    if st.pc = PC.top then
      if st.stats.terminate then
        ({ st with pc := PC.exited },
          Effect.logInfo "terminating the udp client loop"
            :: st.deferred.map (fun c => Effect.closeConn c.id))
      else ({ st with pc := PC.waiting }, [])
    else (st, [])
  | UDPAction.recv m env =>
    if st.pc = PC.waiting then clientUDPHandle marshal m env st else (st, [])

/-- `clientUDP` under a schedule of actions: the final state and everything it did. -/
def clientUDP {μ : Type} (marshal : μ → Except String Bytes) :
    List (UDPAction μ) → UDPLoop μ → UDPLoop μ × List (Effect μ)
  | [], st => (st, [])
  | a :: rest, st =>
    let r1 := clientUDPStep marshal a st
    let r2 := clientUDP marshal rest r1.1
    (r2.1, r1.2 ++ r2.2)

/-- An HTTP response: status code, and what `ioutil.ReadAll(resp.Body)` gives. -/
structure Response where
  StatusCode : Nat
  body : String
  readErr : Option String
deriving DecidableEq, Repr

/-- What the outside answers during one flush: the error of `http.NewRequest` if any, and
the outcome of `client.Do`. -/
structure TickEnv where
  newRequestErr : Option String
  doResult : Except String Response

/-- State of the `clientHTTP` task: the shared `Stats` (it owns `hBuffer`). -/
structure HTTPLoop (μ : Type) where
  pc : PC
  stats : Stats μ
deriving DecidableEq, Repr

/-- One atomic action of a `clientHTTP` execution: another task calls `Terminate`, the loop
tests the flag, the select takes a message, or the select takes a timer tick. -/
inductive HTTPAction (μ : Type) where
  | setTerminate
  | check
  | recv (m : μ)
  | tick (env : TickEnv)

/-- Go `client.Do(req)` as the pair `(resp, err)`: `resp` is nil when `err` is not. -/
def clientDo (r : Except String Response) : Option Response × Option String :=
  match r with
  | .ok resp => (some resp, none)
  | .error e => (none, some e)

/-- Lines 203-228 of `clientHTTP`: the timer case of the select. -/
def clientHTTPFlush {μ : Type} (marshalBatch : List μ → Except String Bytes) (env : TickEnv)
    (st : HTTPLoop μ) : HTTPLoop μ × List (Effect μ) :=
  match marshalBatch st.stats.hBuffer with
  | .error _ => ({ st with pc := PC.top }, [Effect.logError ""])
  | .ok payload =>
    match env.newRequestErr with
    | some _ => ({ st with pc := PC.top }, [Effect.logError ""])
    | none =>
      let done := clientDo env.doResult
      if done.2.isSome then
        ({ st with pc := PC.top }, [Effect.post st.stats.hBuffer payload, Effect.logError ""])
      else
        match done.1 with
        | none => ({ st with pc := PC.crashed }, [Effect.post st.stats.hBuffer payload])
        | some resp =>
          let logs : List (Effect μ) :=
            if resp.StatusCode ≠ 204 then
              (if resp.readErr.isSome then [Effect.logError ""] else [])
                ++ (if st.stats.raiseDebugVerbosity then [Effect.logDebug resp.body] else [])
            else []
          ({ pc := PC.top, stats := { st.stats with hBuffer := [] } },
            [Effect.post st.stats.hBuffer payload] ++ logs ++ [Effect.closeBody])

/-- One action of a `clientHTTP` execution. An action the loop is not ready for leaves the
state as it is. -/
def clientHTTPStep {μ : Type} (marshalBatch : List μ → Except String Bytes) (a : HTTPAction μ)
    (st : HTTPLoop μ) : HTTPLoop μ × List (Effect μ) :=
  match a with
  | HTTPAction.setTerminate => ({ st with stats := Terminate st.stats }, [])
  | HTTPAction.check =>
    if st.pc = PC.top then
      if st.stats.terminate then
        ({ st with pc := PC.exited }, [Effect.logInfo "terminating the http client loop"])
      else ({ st with pc := PC.waiting }, [])
    else (st, [])
  | HTTPAction.recv m =>
    if st.pc = PC.waiting then
      ({ pc := PC.top, stats := { st.stats with hBuffer := st.stats.hBuffer ++ [m] } },
        [Effect.recv m])
    else (st, [])
  | HTTPAction.tick env =>
    if st.pc = PC.waiting then clientHTTPFlush marshalBatch env st else (st, [])

/-- `clientHTTP` under a schedule of actions: the final state and everything it did. -/
def clientHTTP {μ : Type} (marshalBatch : List μ → Except String Bytes) :
    List (HTTPAction μ) → HTTPLoop μ → HTTPLoop μ × List (Effect μ)
  | [], st => (st, [])
  | a :: rest, st =>
    let r1 := clientHTTPStep marshalBatch a st
    let r2 := clientHTTP marshalBatch rest r1.1
    (r2.1, r1.2 ++ r2.2)

/-- Lines 187-192 of `clientHTTP`: the loop is entered at the top. `time.NewTicker` panics
when the period is not positive. -/
def clientHTTPInit {μ : Type} (st : Stats μ) : HTTPLoop μ :=
  if 0 < st.postInt then { pc := PC.top, stats := st } else { pc := PC.crashed, stats := st }

/-- The schedule in which each message of `msgs` is received in turn, the loop testing the
terminate flag before each receive. -/
def deliver {μ : Type} (msgs : List μ) : List (HTTPAction μ) :=
  msgs.flatMap (fun m => [HTTPAction.check, HTTPAction.recv m])

/-- The action is a timer tick. -/
def HTTPAction.isTick {μ : Type} : HTTPAction μ → Bool
  | HTTPAction.tick _ => true
  | _ => false

/-! ## Sample inputs -/

/-- A stand-in for `time.ParseDuration` that knows two durations. -/
def sampleParse (s : String) : Except String Int :=
  if s = "5s" then .ok 5000000000
  else if s = "1m" then .ok 60000000000
  else .error "time: invalid duration"

/-- A heap holding one map, the default tags of the caller. -/
def sampleHeap : Heap :=
  ⟨[[("ksid", "app"), ("env", "qa")]]⟩

/-- A minimal udp configuration: address, port and ksid. -/
def minimalUDP : Settings :=
  { Address := "localhost", Port := 8125, Protocol := "udp", HTTPTimeout := "",
    HTTPPostInterval := "", Tags := some 0, Runtime := false, RaiseDebugVerbosity := false }

/-- Messages are numbers, serialized as one byte each. -/
def sampleMarshal (m : Nat) : Except String Bytes :=
  .ok [m]

/-- A batch of numbers, serialized as its own list. -/
def sampleMarshalBatch (b : List Nat) : Except String Bytes :=
  .ok b

/-- A serializer that rejects the message 0, as `json.Marshal` rejects a value that is NaN
or infinite. -/
def rejectingMarshal (m : Nat) : Except String Bytes :=
  if m = 0 then .error "json: unsupported value" else .ok [m]

/-- The batch serializer that rejects every batch holding the message 0. -/
def rejectingMarshalBatch (b : List Nat) : Except String Bytes :=
  if 0 ∈ b then .error "json: unsupported value" else .ok b

/-- An http engine as `New` builds it: empty buffer, flag unset. -/
def sampleStats : Stats Nat :=
  { address := "localhost", port := 8125, tags := 1, proto := "http", timeout := 5000000000,
    postInt := 60000000000, points := [], hBuffer := [], raiseDebugVerbosity := false,
    terminate := false }

/-- A udp engine as `New` builds it. -/
def sampleUDPStats : Stats Nat :=
  { address := "localhost", port := 8125, tags := 1, proto := "udp", timeout := 0,
    postInt := 0, points := [], hBuffer := [], raiseDebugVerbosity := false,
    terminate := false }

end snitch

namespace files

/-- The part of `os.FileInfo` that `visit` reads. -/
structure FileInfo where
  Name : String
  Size : Int
  ModTime : Int
  IsDir : Bool
deriving DecidableEq, Repr

/-- Modelled from the spec: the `File` type declaration is not among the sources; these are
the fields `visit` fills in. -/
structure File where
  Name : String
  Path : String
  Size : Int
  LastModification : Int
  Ignored : Bool
deriving DecidableEq, Repr

/-- Modelled from the spec: the `ScanResult` type declaration is not among the sources; these
are the fields `Scan` fills in. -/
structure ScanResult where
  Files : List File
  Ignored : List File
  Errors : List String
deriving DecidableEq, Repr

/-- `Scanner`; `fileRegexp` is the `MatchString` of the compiled regexp. -/
structure Scanner where
  fileRegexp : String → Bool
  minFileSize : Int
  filesFound : List File
  ignoredFiles : List File
  errorsFound : List String

/-- One call `filepath.Walk` makes to the walk function. -/
structure Visit where
  path : String
  info : FileInfo
  err : Option String
deriving DecidableEq, Repr

/-- `Scanner.visit`: the scanner afterwards and the returned error. -/
def visit (s : Scanner) (path : String) (f : FileInfo) (err : Option String) :
    Scanner × Option String :=
  match err with
  | some e => ({ s with errorsFound := s.errorsFound ++ [e] }, some e)
  | none =>
    if f.IsDir then (s, none)
    else
      let file : File :=
        { Name := f.Name, Path := path, Size := f.Size, LastModification := f.ModTime,
          Ignored := false }
      if s.fileRegexp path then
        if file.Size < s.minFileSize then
          ({ s with ignoredFiles := s.ignoredFiles ++ [{ file with Ignored := true }] }, none)
        else
          ({ s with filesFound := s.filesFound ++ [{ file with Ignored := false }] }, none)
      else
        ({ s with ignoredFiles := s.ignoredFiles ++ [{ file with Ignored := true }] }, none)

/-- The use `Scan` makes of `filepath.Walk`: the walk function is called on each visit in
turn, and the walk ends with the first error the walk function returns. -/
def walk : List Visit → Scanner → Scanner × Option String
  | [], s => (s, none)
  | v :: rest, s =>
    match visit s v.path v.info v.err with
    | (s1, some e) => (s1, some e)
    | (s1, none) => walk rest s1

/-- `Scanner.Scan` over the visits the walk of `directoryRoot` makes: the result, the
returned error and the scanner afterwards. -/
def Scan (s : Scanner) (visits : List Visit) : ScanResult × Option String × Scanner :=
  let s0 : Scanner := { s with filesFound := [], ignoredFiles := [], errorsFound := [] }
  let r := walk visits s0
  ({ Files := r.1.filesFound, Ignored := r.1.ignoredFiles, Errors := r.1.errorsFound },
    r.2, r.1)

/-- The `File` that `visit` builds for a visit. -/
def Visit.toFile (v : Visit) (ignored : Bool) : File :=
  { Name := v.info.Name, Path := v.path, Size := v.info.Size,
    LastModification := v.info.ModTime, Ignored := ignored }

/-- The visit is kept: a regular entry whose path matches and whose size reaches the
minimum. -/
def Visit.kept (s : Scanner) (v : Visit) : Bool :=
  !v.info.IsDir && s.fileRegexp v.path && decide (s.minFileSize ≤ v.info.Size)

/-- The visit is ignored: a regular entry that is not kept. -/
def Visit.dropped (s : Scanner) (v : Visit) : Bool :=
  !v.info.IsDir && !(s.fileRegexp v.path && decide (s.minFileSize ≤ v.info.Size))

/-- A sample scanner: paths ending in `.log`, at least 10 bytes. -/
def sampleScanner : Scanner :=
  { fileRegexp := fun p => ".log".toList.isSuffixOf p.toList, minFileSize := 10, filesFound := [],
    ignoredFiles := [], errorsFound := [] }

/-- A sample walk: a directory, a large log, a small log, a text file. -/
def sampleVisits : List Visit :=
  [ ⟨"/var", ⟨"var", 4096, 0, true⟩, none⟩,
    ⟨"/var/a.log", ⟨"a.log", 120, 1, false⟩, none⟩,
    ⟨"/var/b.log", ⟨"b.log", 3, 2, false⟩, none⟩,
    ⟨"/var/c.txt", ⟨"c.txt", 500, 3, false⟩, none⟩ ]

end files

/-! # Theorems -/

namespace snitch

/-! ## Maps and heap -/

theorem lookup_assign_self (m : TagMap) (k v : String) :
    (m.assign k v).lookup k = some v := by
  induction m with
  | nil => simp [TagMap.assign, List.lookup]
  | cons kv rest ih =>
    obtain ⟨k0, v0⟩ := kv
    by_cases h : k0 = k
    · simp [TagMap.assign, h, List.lookup]
    · have h2 : (k == k0) = false := by simpa using fun e => h e.symm
      simp [TagMap.assign, h, List.lookup, h2, ih]

theorem lookup_assign_ne (m : TagMap) (k v k1 : String) (hne : k1 ≠ k) :
    (m.assign k v).lookup k1 = m.lookup k1 := by
  induction m with
  | nil =>
    have h2 : (k1 == k) = false := by simpa using hne
    simp [TagMap.assign, List.lookup, h2]
  | cons kv rest ih =>
    obtain ⟨k0, v0⟩ := kv
    by_cases h : k0 = k
    · subst h
      have h2 : (k1 == k0) = false := by simpa using hne
      simp [TagMap.assign, List.lookup, h2]
    · simp only [TagMap.assign, h, if_false, List.lookup]
      rw [ih]

theorem lookup_eq_none_of_not_mem_keys (m : TagMap) (k : String)
    (h : k ∉ m.map Prod.fst) : m.lookup k = none := by
  induction m with
  | nil => rfl
  | cons kv rest ih =>
    obtain ⟨k0, v0⟩ := kv
    simp only [List.map_cons, List.mem_cons, not_or] at h
    have h2 : (k == k0) = false := by simpa using h.1
    simp only [List.lookup, h2]
    exact ih h.2

theorem lookup_foldl_assign (l acc : TagMap) (hl : l.WF) (k : String) :
    (l.foldl (fun m kv => m.assign kv.1 kv.2) acc).lookup k
      = (l.lookup k).orElse (fun _ => acc.lookup k) := by
  induction l generalizing acc with
  | nil => simp [List.lookup]
  | cons kv rest ih =>
    obtain ⟨k0, v0⟩ := kv
    have hnd : k0 ∉ rest.map Prod.fst ∧ (rest.map Prod.fst).Nodup := by
      simpa [TagMap.WF] using hl
    rw [List.foldl_cons, ih _ hnd.2]
    by_cases h : k = k0
    · subst h
      rw [lookup_eq_none_of_not_mem_keys rest k hnd.1]
      simp [List.lookup, lookup_assign_self]
    · have h2 : (k == k0) = false := by simpa using h
      simp only [List.lookup, h2]
      rw [lookup_assign_ne _ _ _ _ h]

theorem Heap.length_assign (h : Heap) (r : Nat) (k v : String) :
    (h.assign r k v).maps.length = h.maps.length := by
  simp [Heap.assign]

theorem Heap.deref_assign_same (h : Heap) (r : Nat) (k v : String) (hr : r < h.maps.length) :
    (h.assign r k v).deref r = (h.deref r).assign k v := by
  simp [Heap.assign, Heap.deref, List.getD_eq_getElem?_getD, List.getElem?_set, hr]

theorem Heap.deref_assign_other (h : Heap) (r r1 : Nat) (k v : String) (hne : r1 ≠ r) :
    (h.assign r k v).deref r1 = h.deref r1 := by
  simp [Heap.assign, Heap.deref, List.getD_eq_getElem?_getD, List.getElem?_set, Ne.symm hne]

theorem Heap.foldl_assign (l : TagMap) (h : Heap) (r : Nat) (hr : r < h.maps.length) :
    (l.foldl (fun h kv => h.assign r kv.1 kv.2) h).maps.length = h.maps.length
    ∧ (l.foldl (fun h kv => h.assign r kv.1 kv.2) h).deref r
        = l.foldl (fun m kv => m.assign kv.1 kv.2) (h.deref r)
    ∧ ∀ r1, r1 ≠ r → (l.foldl (fun h kv => h.assign r kv.1 kv.2) h).deref r1 = h.deref r1 := by
  induction l generalizing h with
  | nil => simp
  | cons kv rest ih =>
    have hr1 : r < (h.assign r kv.1 kv.2).maps.length := by
      rw [Heap.length_assign]; exact hr
    obtain ⟨h1, h2, h3⟩ := ih (h.assign r kv.1 kv.2) hr1
    refine ⟨?_, ?_, ?_⟩
    · rw [List.foldl_cons, h1, Heap.length_assign]
    · rw [List.foldl_cons, h2, Heap.deref_assign_same _ _ _ _ hr, List.foldl_cons]
    · intro r1 hne
      rw [List.foldl_cons, h3 r1 hne, Heap.deref_assign_other _ _ _ _ _ hne]

theorem Heap.deref_make (h : Heap) :
    h.make.1.deref h.make.2 = [] ∧ h.make.2 = h.maps.length
    ∧ h.make.1.maps.length = h.maps.length + 1
    ∧ ∀ r, r < h.maps.length → h.make.1.deref r = h.deref r := by
  refine ⟨?_, rfl, ?_, ?_⟩
  · simp [Heap.make, Heap.deref, List.getD_eq_getElem?_getD]
  · simp [Heap.make]
  · intro r hr
    simp [Heap.make, Heap.deref, List.getD_eq_getElem?_getD, List.getElem?_append_left, hr]

/-- The copy made by `copyTags` is a fresh map with the entries of the source, and every
map that existed before is untouched. -/
theorem copyTags_spec (heap : Heap) (src : Option Nat) (hwf : (heap.entries src).WF) :
    (copyTags heap src).2 = heap.maps.length
    ∧ (copyTags heap src).1.maps.length = heap.maps.length + 1
    ∧ (∀ k, ((copyTags heap src).1.deref (copyTags heap src).2).lookup k
        = (heap.entries src).lookup k)
    ∧ ∀ r, r < heap.maps.length → (copyTags heap src).1.deref r = heap.deref r := by
  obtain ⟨m1, m2, m3, m4⟩ := Heap.deref_make heap
  have hr : heap.make.2 < heap.make.1.maps.length := by omega
  obtain ⟨f1, f2, f3⟩ := Heap.foldl_assign (heap.entries src) heap.make.1 heap.make.2 hr
  refine ⟨m2, ?_, ?_, ?_⟩
  · simp only [copyTags]; rw [f1, m3]
  · intro k
    simp only [copyTags]
    rw [f2, m1, lookup_foldl_assign _ _ hwf]
    cases (heap.entries src).lookup k <;> simp [List.lookup]
  · intro r hlt
    simp only [copyTags]
    rw [f3 r (by omega), m4 r hlt]


/-! ## New -/

theorem index_eq_empty_iff (m : TagMap) (k : String) :
    m.index k = "" ↔ (m.lookup k = none ∨ m.lookup k = some "") := by
  unfold TagMap.index
  cases m.lookup k <;> simp

theorem parseHTTPDurations_error_iff (pd : String → Except String Int) (s : Settings) :
    (∃ e, parseHTTPDurations pd s = .error e)
      ↔ (s.Protocol = "http"
          ∧ ((∃ e, pd s.HTTPTimeout = .error e) ∨ (∃ e, pd s.HTTPPostInterval = .error e))) := by
  unfold parseHTTPDurations
  by_cases hp : s.Protocol = "http"
  · simp only [hp, if_true, true_and]
    cases h1 : pd s.HTTPTimeout <;> cases h2 : pd s.HTTPPostInterval <;> simp
  · simp [hp]

/-- C1. Assuming the host-name lookup succeeds, `New` returns an error exactly when the
address is empty, or the port is 0, or the protocol is neither http nor udp, or the protocol
is http and one of the two durations does not parse, or the ksid tag is absent or empty; an
error comes with no Stats, and no error comes with a Stats. -/
theorem New_fails_iff_invalid {μ : Type} (pd : String → Except String Int) (host : String)
    (heap : Heap) (s : Settings) (hwf : (heap.entries s.Tags).WF) :
    ((New pd (.ok host) heap s : NewResult μ).err ≠ none
      ↔ (s.Address = "" ∨ s.Port = 0 ∨ (s.Protocol ≠ "http" ∧ s.Protocol ≠ "udp")
          ∨ (s.Protocol = "http"
              ∧ ((∃ e, pd s.HTTPTimeout = .error e) ∨ (∃ e, pd s.HTTPPostInterval = .error e)))
          ∨ ((heap.entries s.Tags).lookup "ksid" = none
              ∨ (heap.entries s.Tags).lookup "ksid" = some "")))
    ∧ ((New pd (.ok host) heap s : NewResult μ).err ≠ none
        → (New pd (.ok host) heap s : NewResult μ).stats = none)
    ∧ ((New pd (.ok host) heap s : NewResult μ).err = none
        → (New pd (.ok host) heap s : NewResult μ).stats ≠ none) := by
  have hcopy := (copyTags_spec heap s.Tags hwf).2.2.1 "ksid"
  have hidx := index_eq_empty_iff ((copyTags heap s.Tags).1.deref (copyTags heap s.Tags).2) "ksid"
  rw [hcopy] at hidx
  have hpd := parseHTTPDurations_error_iff pd s
  unfold New
  by_cases h1 : s.Address = ""
  · simp [h1, NewResult.fail]
  by_cases h2 : s.Port = 0
  · simp [h1, h2, NewResult.fail]
  by_cases h3 : s.Protocol ≠ "http" ∧ s.Protocol ≠ "udp"
  · simp [h1, h2, h3, NewResult.fail]
  simp only [h1, h2, h3, if_false, false_or]
  cases h4 : parseHTTPDurations pd s with
  | error e =>
    have := hpd.1 ⟨e, h4⟩
    simp [NewResult.fail, this]
  | ok d =>
    have h5 : ¬ (s.Protocol = "http"
          ∧ ((∃ e, pd s.HTTPTimeout = .error e) ∨ (∃ e, pd s.HTTPPostInterval = .error e))) := by
      intro hc
      obtain ⟨e, he⟩ := hpd.2 hc
      rw [h4] at he
      cases he
    obtain ⟨dur, postInt⟩ := d
    simp only [h5, false_or]
    by_cases h6 : ((copyTags heap s.Tags).1.deref (copyTags heap s.Tags).2).index "ksid" = ""
    · simp only [h6, if_true, NewResult.fail]
      refine ⟨⟨fun _ => hidx.1 h6, fun _ => ?_⟩, ?_, ?_⟩ <;> simp
    · have h7 := fun hc => h6 (hidx.2 hc)
      simp only [h6, if_false]
      refine ⟨⟨fun h => ?_, fun h => absurd h h7⟩, ?_, ?_⟩ <;> simp at *


/-- The shape of every failing return of `New`. -/
theorem New_fail_shape {μ : Type} (pd : String → Except String Int)
    (hostname : Except String String) (heap : Heap) (s : Settings)
    (h : (New pd hostname heap s : NewResult μ).stats = none) :
    (New pd hostname heap s : NewResult μ).err ≠ none
    ∧ (New pd hostname heap s : NewResult μ).spawned = [] := by
  unfold New at h ⊢
  by_cases h1 : s.Address = ""
  · simp [h1, NewResult.fail]
  by_cases h2 : s.Port = 0
  · simp [h1, h2, NewResult.fail]
  by_cases h3 : s.Protocol ≠ "http" ∧ s.Protocol ≠ "udp"
  · simp [h1, h2, h3, NewResult.fail]
  simp only [h1, h2, h3, if_false] at h ⊢
  cases h4 : parseHTTPDurations pd s with
  | error e => simp [NewResult.fail]
  | ok d =>
    obtain ⟨dur, postInt⟩ := d
    simp only [h4] at h ⊢
    by_cases h6 : ((copyTags heap s.Tags).1.deref (copyTags heap s.Tags).2).index "ksid" = ""
    · simp [h6, NewResult.fail]
    · simp only [h6, if_false] at h ⊢
      cases hostname with
      | error e => simp [NewResult.fail]
      | ok name => simp at h

/-- The shape of the successful return of `New`. -/
theorem New_ok_shape {μ : Type} (pd : String → Except String Int)
    (hostname : Except String String) (heap : Heap) (s : Settings) (st : Stats μ)
    (h : (New pd hostname heap s : NewResult μ).stats = some st) :
    ∃ host, hostname = .ok host
      ∧ ((copyTags heap s.Tags).1.deref (copyTags heap s.Tags).2).index "ksid" ≠ ""
      ∧ st.tags = (copyTags heap s.Tags).2
      ∧ st.proto = s.Protocol
      ∧ st.points = []
      ∧ st.hBuffer = []
      ∧ st.terminate = false
      ∧ (New pd hostname heap s : NewResult μ).heap
          = (copyTags heap s.Tags).1.assign (copyTags heap s.Tags).2 "host" host
      ∧ (New pd hostname heap s : NewResult μ).err = none
      ∧ (New pd hostname heap s : NewResult μ).spawned = [Activity.goStart s.Runtime] := by
  unfold New at h ⊢
  by_cases h1 : s.Address = ""
  · simp [h1, NewResult.fail] at h
  by_cases h2 : s.Port = 0
  · simp [h1, h2, NewResult.fail] at h
  by_cases h3 : s.Protocol ≠ "http" ∧ s.Protocol ≠ "udp"
  · simp [h1, h2, h3, NewResult.fail] at h
  simp only [h1, h2, h3, if_false] at h ⊢
  cases h4 : parseHTTPDurations pd s with
  | error e => simp [h4, NewResult.fail] at h
  | ok d =>
    obtain ⟨dur, postInt⟩ := d
    simp only [h4] at h ⊢
    by_cases h6 : ((copyTags heap s.Tags).1.deref (copyTags heap s.Tags).2).index "ksid" = ""
    · simp [h6, NewResult.fail] at h
    · simp only [h6, if_false] at h ⊢
      cases hostname with
      | error e => simp [NewResult.fail] at h
      | ok name =>
        simp only [Option.some.injEq] at h
        subst h
        exact ⟨name, rfl, h6, rfl, rfl, rfl, rfl, rfl, rfl, rfl, rfl⟩

/-- C2. For every Settings that `New` accepts, the tag map of the returned Stats holds a
non-empty ksid tag and a host tag equal to the host name, agrees with the configured Tags
on every key other than host (same value when configured, absent when not), and is a fresh
map: the configured map and every other map that existed before are left as they were. -/
theorem New_default_tags {μ : Type} (pd : String → Except String Int)
    (hostname : Except String String) (heap : Heap) (s : Settings) (st : Stats μ)
    (hwf : (heap.entries s.Tags).WF) (hvalid : ∀ r, s.Tags = some r → r < heap.maps.length)
    (hok : (New pd hostname heap s : NewResult μ).stats = some st) :
    ∃ host, hostname = .ok host
      ∧ (∃ v, ((New pd hostname heap s : NewResult μ).heap.deref st.tags).lookup "ksid" = some v
          ∧ v ≠ "")
      ∧ ((New pd hostname heap s : NewResult μ).heap.deref st.tags).lookup "host" = some host
      ∧ (∀ k, k ≠ "host" →
          ((New pd hostname heap s : NewResult μ).heap.deref st.tags).lookup k
            = (heap.entries s.Tags).lookup k)
      ∧ (New pd hostname heap s : NewResult μ).heap.entries s.Tags = heap.entries s.Tags
      ∧ s.Tags ≠ some st.tags
      ∧ ∀ r, r < heap.maps.length →
          (New pd hostname heap s : NewResult μ).heap.deref r = heap.deref r := by
  obtain ⟨host, hh, hks, htags, -, -, -, -, hheap, -, -⟩ := New_ok_shape pd hostname heap s st hok
  obtain ⟨c1, c2, c3, c4⟩ := copyTags_spec heap s.Tags hwf
  have hlt : (copyTags heap s.Tags).2 < (copyTags heap s.Tags).1.maps.length := by omega
  have hframe : ∀ r, r < heap.maps.length →
      (New pd hostname heap s : NewResult μ).heap.deref r = heap.deref r := by
    intro r hr
    rw [hheap, Heap.deref_assign_other _ _ _ _ _ (by omega), c4 r hr]
  have hderef : (New pd hostname heap s : NewResult μ).heap.deref st.tags
      = ((copyTags heap s.Tags).1.deref (copyTags heap s.Tags).2).assign "host" host := by
    rw [hheap, htags, Heap.deref_assign_same _ _ _ _ hlt]
  refine ⟨host, hh, ?_, ?_, ?_, ?_, ?_, hframe⟩
  · rw [hderef, lookup_assign_ne _ _ _ _ (by decide)]
    unfold TagMap.index at hks
    cases hl : ((copyTags heap s.Tags).1.deref (copyTags heap s.Tags).2).lookup "ksid" with
    | none => rw [hl] at hks; simp at hks
    | some v =>
      rw [hl] at hks
      exact ⟨v, rfl, by simpa using hks⟩
  · rw [hderef, lookup_assign_self]
  · intro k hk
    rw [hderef, lookup_assign_ne _ _ _ _ hk, c3 k]
  · cases hs : s.Tags with
    | none => rfl
    | some r => exact hframe r (hvalid r hs)
  · intro hc
    have := hvalid st.tags hc
    omega


/-- Witness for C1: the minimal udp configuration is accepted. -/
theorem New_fails_iff_invalid_witness :
    (sampleHeap.entries minimalUDP.Tags).WF
    ∧ (New sampleParse (.ok "node1") sampleHeap minimalUDP : NewResult Nat).err = none
    ∧ (New sampleParse (.ok "node1") sampleHeap minimalUDP : NewResult Nat).stats ≠ none :=
  ⟨by decide, by decide,
    (@New_fails_iff_invalid Nat sampleParse "node1" sampleHeap minimalUDP (by decide)).2.2
      (by decide)⟩

/-- Witness for C2: the tags stored for the minimal udp configuration. -/
theorem New_default_tags_witness :
    ∃ st : Stats Nat,
      (New sampleParse (.ok "node1") sampleHeap minimalUDP : NewResult Nat).stats = some st
      ∧ ((New sampleParse (.ok "node1") sampleHeap minimalUDP : NewResult Nat).heap.deref
            st.tags).lookup "host" = some "node1"
      ∧ (New sampleParse (.ok "node1") sampleHeap minimalUDP : NewResult Nat).heap.entries
            minimalUDP.Tags = sampleHeap.entries minimalUDP.Tags := by
  have hst : ∃ st : Stats Nat,
      (New sampleParse (.ok "node1") sampleHeap minimalUDP : NewResult Nat).stats = some st :=
    ⟨_, rfl⟩
  obtain ⟨st, hst⟩ := hst
  obtain ⟨host, hh, -, h2, -, h4, -, -⟩ :=
    New_default_tags sampleParse (.ok "node1") sampleHeap minimalUDP st (by decide)
      (by decide) hst
  cases hh
  exact ⟨st, hst, h2, h4⟩

/-- C3, as stated, fails: accepting the minimal udp configuration spawns the start task,
which launches the udp transport loop and the cron scheduler. -/
theorem New_spawns_counterexample :
    (New sampleParse (.ok "node1") sampleHeap minimalUDP : NewResult Nat).err = none
    ∧ (New sampleParse (.ok "node1") sampleHeap minimalUDP : NewResult Nat).spawned
        = [Activity.goStart false]
    ∧ backgroundAfterNew (New sampleParse (.ok "node1") sampleHeap minimalUDP : NewResult Nat)
        = [Activity.goStart false, Activity.goClientUDP, Activity.cronStart] := by
  decide

/-- C3, amended. On every failing return `New` has started nothing. On every successful
return it has spawned exactly the start task, which in turn launches the transport loop of
the configured protocol, the cron scheduler and, when Runtime is set, the runtime monitor. -/
theorem New_background_activity {μ : Type} (pd : String → Except String Int)
    (hostname : Except String String) (heap : Heap) (s : Settings) :
    ((New pd hostname heap s : NewResult μ).err ≠ none →
      (New pd hostname heap s : NewResult μ).spawned = []
      ∧ backgroundAfterNew (New pd hostname heap s : NewResult μ) = [])
    ∧ ((New pd hostname heap s : NewResult μ).err = none →
      (New pd hostname heap s : NewResult μ).spawned = [Activity.goStart s.Runtime]
      ∧ backgroundAfterNew (New pd hostname heap s : NewResult μ)
          = [Activity.goStart s.Runtime,
              if s.Protocol = "udp" then Activity.goClientUDP else Activity.goClientHTTP,
              Activity.cronStart]
            ++ (if s.Runtime then [Activity.goRuntimeLoop] else [])) := by
  cases hst : (New pd hostname heap s : NewResult μ).stats with
  | none =>
    obtain ⟨he, hs⟩ := New_fail_shape pd hostname heap s hst
    refine ⟨fun _ => ⟨hs, ?_⟩, fun h => absurd h he⟩
    simp [backgroundAfterNew, hs]
  | some st =>
    obtain ⟨host, -, -, -, hproto, hpoints, -, -, -, he, hs⟩ :=
      New_ok_shape pd hostname heap s st hst
    refine ⟨fun h => absurd he h, fun _ => ⟨hs, ?_⟩⟩
    simp [backgroundAfterNew, hs, hst, start, hproto, hpoints]

/-- Witness for C3 amended: an http configuration with the runtime monitor enabled. -/
theorem New_background_activity_witness :
    backgroundAfterNew
        (New sampleParse (.ok "node1") sampleHeap
          { minimalUDP with Protocol := "http", HTTPTimeout := "5s", HTTPPostInterval := "1m",
                            Runtime := true } : NewResult Nat)
      = [Activity.goStart true, Activity.goClientHTTP, Activity.cronStart,
          Activity.goRuntimeLoop] :=
  ((@New_background_activity Nat sampleParse (.ok "node1") sampleHeap
      { minimalUDP with Protocol := "http", HTTPTimeout := "5s", HTTPPostInterval := "1m",
                        Runtime := true }).2 (by decide)).2


/-! ## The HTTP transport: flush and buffer -/

theorem received_append {μ : Type} (l1 l2 : List (Effect μ)) :
    received (l1 ++ l2) = received l1 ++ received l2 := by
  induction l1 with
  | nil => rfl
  | cons e rest ih => cases e <;> simp [received, ih]

theorem written_append {μ : Type} (l1 l2 : List (Effect μ)) :
    written (l1 ++ l2) = written l1 ++ written l2 := by
  induction l1 with
  | nil => rfl
  | cons e rest ih => cases e <;> simp [written, ih]

theorem posted_append {μ : Type} (l1 l2 : List (Effect μ)) :
    posted (l1 ++ l2) = posted l1 ++ posted l2 := by
  induction l1 with
  | nil => rfl
  | cons e rest ih => cases e <;> simp [posted, ih]

/-- What a flush posts: the whole buffer, once, provided serialization and request
construction succeed. -/
theorem posted_clientHTTPFlush {μ : Type} (mb : List μ → Except String Bytes)
    (env : TickEnv) (st : HTTPLoop μ) :
    posted (clientHTTPFlush mb env st).2
      = (match mb st.stats.hBuffer with
          | .ok p => if env.newRequestErr = none then [(st.stats.hBuffer, p)] else []
          | .error _ => []) := by
  unfold clientHTTPFlush
  cases hm : mb st.stats.hBuffer with
  | error e => simp [posted]
  | ok p =>
    cases hn : env.newRequestErr with
    | some e => simp [posted]
    | none =>
      cases hd : env.doResult with
      | error e => simp [clientDo, posted]
      | ok resp =>
        simp only [clientDo, Option.isSome_none, Bool.false_eq_true, if_false, posted_append]
        split_ifs <;> simp [posted]

/-- A flush that gets a response ends at the top of the loop with an empty buffer. -/
theorem clientHTTPFlush_response {μ : Type} (mb : List μ → Except String Bytes)
    (st : HTTPLoop μ) (p : Bytes) (resp : Response) (hm : mb st.stats.hBuffer = .ok p) :
    (clientHTTPFlush mb ⟨none, .ok resp⟩ st).1
      = { pc := PC.top, stats := { st.stats with hBuffer := [] } } := by
  unfold clientHTTPFlush
  simp only [hm, clientDo, Option.isSome_none, Bool.false_eq_true, if_false]

/-- A check followed by a tick, from the top of the loop with the flag unset, is a flush. -/
theorem clientHTTP_check_tick {μ : Type} (mb : List μ → Except String Bytes)
    (env : TickEnv) (st : HTTPLoop μ) (htop : st.pc = PC.top)
    (hterm : st.stats.terminate = false) :
    clientHTTP mb [HTTPAction.check, HTTPAction.tick env] st
      = clientHTTPFlush mb env { st with pc := PC.waiting } := by
  simp [clientHTTP, clientHTTPStep, htop, hterm]

/-- A flush that fails before a response arrives leaves the buffer as it was. -/
theorem clientHTTPFlush_failure {μ : Type} (mb : List μ → Except String Bytes)
    (env : TickEnv) (st : HTTPLoop μ)
    (hfail : (∃ e, mb st.stats.hBuffer = .error e) ∨ env.newRequestErr ≠ none
      ∨ ∃ e, env.doResult = .error e) :
    (clientHTTPFlush mb env st).1 = { st with pc := PC.top } := by
  unfold clientHTTPFlush
  cases hm : mb st.stats.hBuffer with
  | error e => rfl
  | ok p =>
    cases hn : env.newRequestErr with
    | some e => rfl
    | none =>
      rcases hfail with ⟨e, he⟩ | h | ⟨e, he⟩
      · rw [hm] at he; cases he
      · exact absurd hn h
      · simp [he, clientDo]

/-- C4, as stated, fails: when the POST fails at the transport level the flush step ends
with the pending buffer still holding both messages. -/
theorem flush_clears_counterexample :
    (clientHTTPStep sampleMarshalBatch
        (HTTPAction.tick ⟨none, .error "connection refused"⟩)
        { pc := PC.waiting, stats := { sampleStats with hBuffer := [7, 8] } }).1
      = { pc := PC.top, stats := { sampleStats with hBuffer := [7, 8] } } := by
  decide

/-- C4, amended. A timer-triggered flush empties the pending buffer whenever the POST
returns a response, whatever its status; when serialization, request construction or the
request itself fails, the flush step ends with the buffer unchanged. -/
theorem flush_clears_on_response {μ : Type} (mb : List μ → Except String Bytes)
    (st : HTTPLoop μ) (hw : st.pc = PC.waiting) :
    (∀ p resp, mb st.stats.hBuffer = .ok p →
      (clientHTTPStep mb (HTTPAction.tick ⟨none, .ok resp⟩) st).1.stats.hBuffer = []
      ∧ (clientHTTPStep mb (HTTPAction.tick ⟨none, .ok resp⟩) st).1.pc = PC.top)
    ∧ (∀ env, ((∃ e, mb st.stats.hBuffer = .error e) ∨ env.newRequestErr ≠ none
          ∨ ∃ e, env.doResult = .error e) →
      (clientHTTPStep mb (HTTPAction.tick env) st).1.stats.hBuffer = st.stats.hBuffer
      ∧ (clientHTTPStep mb (HTTPAction.tick env) st).1.pc = PC.top) := by
  refine ⟨fun p resp hm => ?_, fun env hfail => ?_⟩
  · simp only [clientHTTPStep, hw, if_true]
    rw [clientHTTPFlush_response mb st p resp hm]
    exact ⟨rfl, rfl⟩
  · simp only [clientHTTPStep, hw, if_true]
    rw [clientHTTPFlush_failure mb env st hfail]
    exact ⟨rfl, rfl⟩

/-- Witness for C4 amended: a 500 response empties a buffer of two messages. -/
theorem flush_clears_on_response_witness :
    (clientHTTPStep sampleMarshalBatch (HTTPAction.tick ⟨none, .ok ⟨500, "oops", none⟩⟩)
        { pc := PC.waiting, stats := { sampleStats with hBuffer := [7, 8] } }).1.stats.hBuffer
      = [] :=
  ((flush_clears_on_response sampleMarshalBatch
      { pc := PC.waiting, stats := { sampleStats with hBuffer := [7, 8] } } rfl).1
    [7, 8] ⟨500, "oops", none⟩ rfl).1

/-- C5. A flush whose POST gets a response with any status code leaves the loop in the
same state as one whose POST gets 204: the buffer is empty. A following flush with no new
message posts the empty batch and nothing else. -/
theorem flush_non_success_like_success {μ : Type} (mb : List μ → Except String Bytes)
    (st : HTTPLoop μ) (code : Nat) (body : String) (readErr : Option String) (p : Bytes)
    (env2 : TickEnv) (hw : st.pc = PC.waiting) (hterm : st.stats.terminate = false)
    (hm : mb st.stats.hBuffer = .ok p) :
    (clientHTTPStep mb (HTTPAction.tick ⟨none, .ok ⟨code, body, readErr⟩⟩) st).1.stats.hBuffer
        = []
    ∧ (clientHTTPStep mb (HTTPAction.tick ⟨none, .ok ⟨code, body, readErr⟩⟩) st).1
        = (clientHTTPStep mb (HTTPAction.tick ⟨none, .ok ⟨204, "", none⟩⟩) st).1
    ∧ posted (clientHTTPStep mb (HTTPAction.tick ⟨none, .ok ⟨code, body, readErr⟩⟩) st).2
        = [(st.stats.hBuffer, p)]
    ∧ posted (clientHTTP mb [HTTPAction.check, HTTPAction.tick env2]
          (clientHTTPStep mb (HTTPAction.tick ⟨none, .ok ⟨code, body, readErr⟩⟩) st).1).2
        = (match mb [] with
            | .ok q => if env2.newRequestErr = none then [([], q)] else []
            | .error _ => []) := by
  have h1 := clientHTTPFlush_response mb st p ⟨code, body, readErr⟩ hm
  have h2 := clientHTTPFlush_response mb st p ⟨204, "", none⟩ hm
  have h3 := posted_clientHTTPFlush mb ⟨none, .ok ⟨code, body, readErr⟩⟩ st
  rw [hm] at h3
  simp only [clientHTTPStep, hw, if_true]
  rw [h1, h2, h3]
  refine ⟨rfl, rfl, by simp, ?_⟩
  rw [clientHTTP_check_tick mb env2
    { pc := PC.top, stats := { st.stats with hBuffer := [] } } rfl hterm,
    posted_clientHTTPFlush]


theorem clientHTTP_cons {μ : Type} (mb : List μ → Except String Bytes) (a : HTTPAction μ)
    (rest : List (HTTPAction μ)) (st : HTTPLoop μ) :
    clientHTTP mb (a :: rest) st
      = ((clientHTTP mb rest (clientHTTPStep mb a st).1).1,
          (clientHTTPStep mb a st).2 ++ (clientHTTP mb rest (clientHTTPStep mb a st).1).2) :=
  rfl

theorem clientHTTPStep_check_top {μ : Type} (mb : List μ → Except String Bytes)
    (st : HTTPLoop μ) (htop : st.pc = PC.top) (hterm : st.stats.terminate = false) :
    clientHTTPStep mb HTTPAction.check st = ({ st with pc := PC.waiting }, []) := by
  simp [clientHTTPStep, htop, hterm]

theorem clientHTTPStep_recv_waiting {μ : Type} (mb : List μ → Except String Bytes) (m : μ)
    (st : HTTPLoop μ) (hw : st.pc = PC.waiting) :
    clientHTTPStep mb (HTTPAction.recv m) st
      = ({ pc := PC.top, stats := { st.stats with hBuffer := st.stats.hBuffer ++ [m] } },
          [Effect.recv m]) := by
  simp [clientHTTPStep, hw]

theorem clientHTTP_deliver {μ : Type} (mb : List μ → Except String Bytes) (msgs : List μ)
    (st : HTTPLoop μ) (htop : st.pc = PC.top) (hterm : st.stats.terminate = false) :
    (clientHTTP mb (deliver msgs) st).1.stats.hBuffer = st.stats.hBuffer ++ msgs
    ∧ received (clientHTTP mb (deliver msgs) st).2 = msgs := by
  induction msgs generalizing st with
  | nil => simp [deliver, clientHTTP, received]
  | cons m rest ih =>
    have h := ih { pc := PC.top, stats := { st.stats with hBuffer := st.stats.hBuffer ++ [m] } }
      rfl hterm
    have hd : deliver (m :: rest) = HTTPAction.check :: HTTPAction.recv m :: deliver rest := by
      simp [deliver]
    rw [hd, clientHTTP_cons, clientHTTPStep_check_top mb st htop hterm, clientHTTP_cons,
      clientHTTPStep_recv_waiting mb m _ rfl]
    refine ⟨?_, ?_⟩
    · rw [h.1]; simp
    · rw [received_append, received_append, h.2]; simp [received]

theorem clientHTTP_no_tick {μ : Type} (mb : List μ → Except String Bytes)
    (sched : List (HTTPAction μ)) (st : HTTPLoop μ) (hno : ∀ a ∈ sched, a.isTick = false) :
    (clientHTTP mb sched st).1.stats.hBuffer
      = st.stats.hBuffer ++ received (clientHTTP mb sched st).2 := by
  induction sched generalizing st with
  | nil => simp [clientHTTP, received]
  | cons a rest ih =>
    have hrest : ∀ b ∈ rest, b.isTick = false := fun b hb => hno b (List.mem_cons_of_mem _ hb)
    have ha := hno a (List.mem_cons_self _ _)
    simp only [clientHTTP]
    rw [ih _ hrest, received_append]
    cases a with
    | setTerminate => simp [clientHTTPStep, Terminate, received]
    | check =>
      by_cases h1 : st.pc = PC.top <;> by_cases h2 : st.stats.terminate = true
        <;> simp [clientHTTPStep, h1, h2, received]
    | recv m =>
      by_cases h1 : st.pc = PC.waiting <;> simp [clientHTTPStep, h1, received]
    | tick env => simp [HTTPAction.isTick] at ha

/-- C9. The pending buffer of the HTTP transport is the arrival-order sequence of the
received messages: receiving a list of messages turns the buffer into the old buffer
followed by them, in every execution without a timer tick the buffer is the old buffer
followed by the messages taken from the channel, and what a timer tick posts is the whole
buffer at that moment. -/
theorem hBuffer_arrival_order {μ : Type} (mb : List μ → Except String Bytes) :
    (∀ (msgs : List μ) (st : HTTPLoop μ), st.pc = PC.top → st.stats.terminate = false →
      (clientHTTP mb (deliver msgs) st).1.stats.hBuffer = st.stats.hBuffer ++ msgs
      ∧ received (clientHTTP mb (deliver msgs) st).2 = msgs)
    ∧ (∀ (sched : List (HTTPAction μ)) (st : HTTPLoop μ), (∀ a ∈ sched, a.isTick = false) →
      (clientHTTP mb sched st).1.stats.hBuffer
        = st.stats.hBuffer ++ received (clientHTTP mb sched st).2)
    ∧ (∀ (env : TickEnv) (st : HTTPLoop μ), st.pc = PC.waiting →
      posted (clientHTTPStep mb (HTTPAction.tick env) st).2
        = (match mb st.stats.hBuffer with
            | .ok p => if env.newRequestErr = none then [(st.stats.hBuffer, p)] else []
            | .error _ => [])) := by
  refine ⟨fun msgs st htop hterm => ?_, clientHTTP_no_tick mb, fun env st hw => ?_⟩
  · exact clientHTTP_deliver mb msgs st htop hterm
  · simp only [clientHTTPStep, hw, if_true]
    exact posted_clientHTTPFlush mb env st

/-- Witness for C9: three messages arrive, then the timer posts all three in order. -/
theorem hBuffer_arrival_order_witness :
    (clientHTTP sampleMarshalBatch (deliver [3, 1, 2])
        (clientHTTPInit { sampleStats with hBuffer := [9] })).1.stats.hBuffer = [9] ++ [3, 1, 2]
    ∧ posted (clientHTTPStep sampleMarshalBatch
        (HTTPAction.tick ⟨none, .ok ⟨204, "", none⟩⟩)
        { pc := PC.waiting, stats := { sampleStats with hBuffer := [9, 3, 1, 2] } }).2
      = [([9, 3, 1, 2], [9, 3, 1, 2])] :=
  ⟨((hBuffer_arrival_order sampleMarshalBatch).1 [3, 1, 2]
      (clientHTTPInit { sampleStats with hBuffer := [9] }) rfl rfl).1,
    (hBuffer_arrival_order sampleMarshalBatch).2.2 ⟨none, .ok ⟨204, "", none⟩⟩
      { pc := PC.waiting, stats := { sampleStats with hBuffer := [9, 3, 1, 2] } } rfl⟩

/-- Witness for C5: a 503 response to a batch of two, then a second flush. -/
theorem flush_non_success_like_success_witness :
    (clientHTTPStep sampleMarshalBatch (HTTPAction.tick ⟨none, .ok ⟨503, "busy", none⟩⟩)
        { pc := PC.waiting, stats := { sampleStats with hBuffer := [7, 8] } }).1.stats.hBuffer
      = []
    ∧ posted (clientHTTP sampleMarshalBatch
          [HTTPAction.check, HTTPAction.tick ⟨none, .ok ⟨204, "", none⟩⟩]
          (clientHTTPStep sampleMarshalBatch
            (HTTPAction.tick ⟨none, .ok ⟨503, "busy", none⟩⟩)
            { pc := PC.waiting, stats := { sampleStats with hBuffer := [7, 8] } }).1).2
      = [([], [])] :=
  ⟨(flush_non_success_like_success sampleMarshalBatch
      { pc := PC.waiting, stats := { sampleStats with hBuffer := [7, 8] } } 503 "busy" none
      [7, 8] ⟨none, .ok ⟨204, "", none⟩⟩ rfl rfl rfl).1,
    (flush_non_success_like_success sampleMarshalBatch
      { pc := PC.waiting, stats := { sampleStats with hBuffer := [7, 8] } } 503 "busy" none
      [7, 8] ⟨none, .ok ⟨204, "", none⟩⟩ rfl rfl rfl).2.2.2⟩


/-! ## Both transports: steps and executions -/

theorem clientUDP_cons {μ : Type} (marshal : μ → Except String Bytes) (a : UDPAction μ)
    (rest : List (UDPAction μ)) (st : UDPLoop μ) :
    clientUDP marshal (a :: rest) st
      = ((clientUDP marshal rest (clientUDPStep marshal a st).1).1,
          (clientUDPStep marshal a st).2 ++ (clientUDP marshal rest (clientUDPStep marshal a st).1).2) :=
  rfl

/-- Handling a message while a connection is held: it is written once, nothing is dialed,
the connection is kept whatever the write returns. -/
theorem clientUDPHandle_conn {μ : Type} (marshal : μ → Except String Bytes) (m : μ)
    (env : UDPEnv) (st : UDPLoop μ) (c : Conn) (hc : st.conn = some c) :
    (clientUDPHandle marshal m env st).1 = { st with pc := PC.top }
    ∧ received (clientUDPHandle marshal m env st).2 = [m]
    ∧ written (clientUDPHandle marshal m env st).2 = [m]
    ∧ (clientUDPHandle marshal m env st).2.filter Effect.isDial = []
    ∧ (clientUDPHandle marshal m env st).2.countP Effect.isSendCall = 1 := by
  unfold clientUDPHandle
  cases hm : marshal m <;> cases hw : env.writeErr
    <;> simp [hc, connWrite, hw, received, written, Effect.isDial, Effect.isSendCall]

/-- Handling a message while no connection is held: one dial is attempted and the message
is not written. -/
theorem clientUDPHandle_no_conn {μ : Type} (marshal : μ → Except String Bytes) (m : μ)
    (env : UDPEnv) (st : UDPLoop μ) (hc : st.conn = none) :
    (clientUDPHandle marshal m env st).1.pc = PC.top
    ∧ (clientUDPHandle marshal m env st).1.stats = st.stats
    ∧ (clientUDPHandle marshal m env st).1.conn = env.dial.toOption
    ∧ received (clientUDPHandle marshal m env st).2 = [m]
    ∧ written (clientUDPHandle marshal m env st).2 = []
    ∧ (clientUDPHandle marshal m env st).2.filter Effect.isDial = [Effect.dial env.dial.isOk]
    ∧ (clientUDPHandle marshal m env st).2.countP Effect.isSendCall = 0 := by
  unfold clientUDPHandle
  cases hm : marshal m <;> cases hd : env.dial
    <;> simp [hc, hd, received, written, Effect.isDial, Effect.isSendCall, Except.toOption,
      Except.isOk, Except.toBool]

/-- Handling a message, whatever fails, ends at the top of the loop with the shared
`Stats` untouched, takes that one message from the channel and makes at most one
`conn.Write` call. -/
theorem clientUDPHandle_spec {μ : Type} (marshal : μ → Except String Bytes) (m : μ)
    (env : UDPEnv) (st : UDPLoop μ) :
    (clientUDPHandle marshal m env st).1.pc = PC.top
    ∧ (clientUDPHandle marshal m env st).1.stats = st.stats
    ∧ received (clientUDPHandle marshal m env st).2 = [m]
    ∧ (written (clientUDPHandle marshal m env st).2).Sublist [m]
    ∧ (clientUDPHandle marshal m env st).2.countP Effect.isSendCall ≤ 1 := by
  cases hc : st.conn with
  | none =>
    obtain ⟨h1, h2, -, h4, h5, -, h7⟩ := clientUDPHandle_no_conn marshal m env st hc
    refine ⟨h1, h2, h4, ?_, by omega⟩
    rw [h5]; exact List.nil_sublist _
  | some c =>
    obtain ⟨h1, h2, h3, -, h5⟩ := clientUDPHandle_conn marshal m env st c hc
    refine ⟨by rw [h1], by rw [h1], h2, ?_, by omega⟩
    rw [h3]

/-- A flush, whatever fails, ends at the top of the loop with the terminate flag untouched
and makes at most one `client.Do` call. -/
theorem clientHTTPFlush_spec {μ : Type} (mb : List μ → Except String Bytes) (env : TickEnv)
    (st : HTTPLoop μ) :
    (clientHTTPFlush mb env st).1.pc = PC.top
    ∧ (clientHTTPFlush mb env st).1.stats.terminate = st.stats.terminate
    ∧ (clientHTTPFlush mb env st).2.countP Effect.isSendCall ≤ 1 := by
  unfold clientHTTPFlush
  cases hm : mb st.stats.hBuffer with
  | error e => simp [Effect.isSendCall]
  | ok p =>
    cases hn : env.newRequestErr with
    | some e => simp [Effect.isSendCall]
    | none =>
      cases hd : env.doResult with
      | error e => simp [clientDo, Effect.isSendCall]
      | ok resp =>
        simp only [clientDo, Option.isSome_none, Bool.false_eq_true, if_false, true_and,
          List.countP_append]
        split_ifs <;> simp [Effect.isSendCall]

/-- A property kept by every action is kept by every execution of `clientUDP`. -/
theorem clientUDP_invariant {μ : Type} (marshal : μ → Except String Bytes)
    (P : UDPLoop μ → Prop) (hstep : ∀ a st, P st → P (clientUDPStep marshal a st).1)
    (sched : List (UDPAction μ)) (st : UDPLoop μ) (h : P st) :
    P (clientUDP marshal sched st).1 := by
  induction sched generalizing st with
  | nil => exact h
  | cons a rest ih =>
    rw [clientUDP_cons]
    exact ih _ (hstep a st h)

/-- A property kept by every action is kept by every execution of `clientHTTP`. -/
theorem clientHTTP_invariant {μ : Type} (mb : List μ → Except String Bytes)
    (P : HTTPLoop μ → Prop) (hstep : ∀ a st, P st → P (clientHTTPStep mb a st).1)
    (sched : List (HTTPAction μ)) (st : HTTPLoop μ) (h : P st) :
    P (clientHTTP mb sched st).1 := by
  induction sched generalizing st with
  | nil => exact h
  | cons a rest ih =>
    rw [clientHTTP_cons]
    exact ih _ (hstep a st h)

/-- Where a `clientUDP` action leaves the loop and the terminate flag. -/
theorem clientUDPStep_pc {μ : Type} (marshal : μ → Except String Bytes) (a : UDPAction μ)
    (st : UDPLoop μ) :
    ((clientUDPStep marshal a st).1.pc = st.pc
      ∨ (st.pc = PC.top ∧ st.stats.terminate = false
          ∧ (clientUDPStep marshal a st).1.pc = PC.waiting)
      ∨ (st.pc = PC.top ∧ st.stats.terminate = true
          ∧ (clientUDPStep marshal a st).1.pc = PC.exited)
      ∨ (st.pc = PC.waiting ∧ (clientUDPStep marshal a st).1.pc = PC.top))
    ∧ (st.stats.terminate = true → (clientUDPStep marshal a st).1.stats.terminate = true) := by
  cases a with
  | setTerminate => simp [clientUDPStep, Terminate]
  | check =>
    by_cases h1 : st.pc = PC.top <;> cases h2 : st.stats.terminate
      <;> simp [clientUDPStep, h1, h2]
  | recv m env =>
    by_cases h1 : st.pc = PC.waiting
    · obtain ⟨h3, h4, -⟩ := clientUDPHandle_spec marshal m env st
      simp only [clientUDPStep, h1, if_true]
      rw [h3, h4]
      simp
    · simp [clientUDPStep, h1]

/-- Where a `clientHTTP` action leaves the loop and the terminate flag. -/
theorem clientHTTPStep_pc {μ : Type} (mb : List μ → Except String Bytes) (a : HTTPAction μ)
    (st : HTTPLoop μ) :
    ((clientHTTPStep mb a st).1.pc = st.pc
      ∨ (st.pc = PC.top ∧ st.stats.terminate = false
          ∧ (clientHTTPStep mb a st).1.pc = PC.waiting)
      ∨ (st.pc = PC.top ∧ st.stats.terminate = true
          ∧ (clientHTTPStep mb a st).1.pc = PC.exited)
      ∨ (st.pc = PC.waiting ∧ (clientHTTPStep mb a st).1.pc = PC.top))
    ∧ (st.stats.terminate = true → (clientHTTPStep mb a st).1.stats.terminate = true) := by
  cases a with
  | setTerminate => simp [clientHTTPStep, Terminate]
  | check =>
    by_cases h1 : st.pc = PC.top <;> cases h2 : st.stats.terminate
      <;> simp [clientHTTPStep, h1, h2]
  | recv m =>
    by_cases h1 : st.pc = PC.waiting <;> simp [clientHTTPStep, h1]
  | tick env =>
    by_cases h1 : st.pc = PC.waiting
    · obtain ⟨h3, h4, -⟩ := clientHTTPFlush_spec mb env st
      simp only [clientHTTPStep, h1, if_true]
      rw [h3, h4]
      simp
    · simp [clientHTTPStep, h1]


/-! ## Errors are contained -/

theorem clientUDP_not_crashed {μ : Type} (marshal : μ → Except String Bytes)
    (sched : List (UDPAction μ)) (st : UDPLoop μ)
    (h : st.pc ≠ PC.crashed ∧ (st.pc = PC.exited → st.stats.terminate = true)) :
    (clientUDP marshal sched st).1.pc ≠ PC.crashed
    ∧ ((clientUDP marshal sched st).1.pc = PC.exited →
        (clientUDP marshal sched st).1.stats.terminate = true) := by
  refine clientUDP_invariant marshal
    (fun s => s.pc ≠ PC.crashed ∧ (s.pc = PC.exited → s.stats.terminate = true)) ?_ sched st h
  intro a s hs
  obtain ⟨hpc, hterm⟩ := clientUDPStep_pc marshal a s
  rcases hpc with h1 | ⟨-, -, h1⟩ | ⟨-, h0, h1⟩ | ⟨-, h1⟩
  · rw [h1]
    exact ⟨hs.1, fun he => hterm (hs.2 he)⟩
  · rw [h1]; exact ⟨by decide, fun he => by cases he⟩
  · rw [h1]; exact ⟨by decide, fun _ => hterm h0⟩
  · rw [h1]; exact ⟨by decide, fun he => by cases he⟩

theorem clientHTTP_not_crashed {μ : Type} (mb : List μ → Except String Bytes)
    (sched : List (HTTPAction μ)) (st : HTTPLoop μ)
    (h : st.pc ≠ PC.crashed ∧ (st.pc = PC.exited → st.stats.terminate = true)) :
    (clientHTTP mb sched st).1.pc ≠ PC.crashed
    ∧ ((clientHTTP mb sched st).1.pc = PC.exited →
        (clientHTTP mb sched st).1.stats.terminate = true) := by
  refine clientHTTP_invariant mb
    (fun s => s.pc ≠ PC.crashed ∧ (s.pc = PC.exited → s.stats.terminate = true)) ?_ sched st h
  intro a s hs
  obtain ⟨hpc, hterm⟩ := clientHTTPStep_pc mb a s
  rcases hpc with h1 | ⟨-, -, h1⟩ | ⟨-, h0, h1⟩ | ⟨-, h1⟩
  · rw [h1]
    exact ⟨hs.1, fun he => hterm (hs.2 he)⟩
  · rw [h1]; exact ⟨by decide, fun he => by cases he⟩
  · rw [h1]; exact ⟨by decide, fun _ => hterm h0⟩
  · rw [h1]; exact ⟨by decide, fun he => by cases he⟩

/-- What handling a message in `clientUDP` leaves behind and logs: the shared `Stats`
(the terminate flag included) is as before, exactly that message has been taken, and the
error log holds one entry for each failure met. -/
theorem clientUDPHandle_logged {μ : Type} (marshal : μ → Except String Bytes) (m : μ)
    (env : UDPEnv) (st : UDPLoop μ) :
    (clientUDPHandle marshal m env st).1.stats = st.stats
    ∧ received (clientUDPHandle marshal m env st).2 = [m]
    ∧ logged (clientUDPHandle marshal m env st).2
        = (if (marshal m).isOk then [] else ["marshal"])
          ++ (if st.conn.isSome then (if env.writeErr.isSome then ["write"] else [])
              else (if env.dial.isOk then [] else ["connect"])) := by
  unfold clientUDPHandle
  cases hm : marshal m <;> cases hc : st.conn <;> cases hw : env.writeErr
    <;> cases hd : env.dial
    <;> simp [connWrite, hw, hd, received, logged, Except.isOk, Except.toBool]

/-- What a flush leaves behind and logs: the terminate flag is as before and the error log
holds one entry when serialization, request construction, the request or the reading of a
non-204 body fails, none otherwise. -/
theorem clientHTTPFlush_logged {μ : Type} (mb : List μ → Except String Bytes) (env : TickEnv)
    (st : HTTPLoop μ) :
    (clientHTTPFlush mb env st).1.stats.terminate = st.stats.terminate
    ∧ logged (clientHTTPFlush mb env st).2
        = (if (mb st.stats.hBuffer).isOk then
            (if env.newRequestErr.isSome then [""]
              else match env.doResult with
                | .error _ => [""]
                | .ok resp =>
                  if resp.StatusCode ≠ 204 ∧ resp.readErr.isSome then [""] else [])
          else [""]) := by
  unfold clientHTTPFlush
  cases hm : mb st.stats.hBuffer with
  | error e => simp [logged, Except.isOk, Except.toBool]
  | ok p =>
    cases hn : env.newRequestErr with
    | some e => simp [logged, Except.isOk, Except.toBool]
    | none =>
      cases hd : env.doResult with
      | error e => simp [clientDo, logged, Except.isOk, Except.toBool]
      | ok resp =>
        by_cases hc : resp.StatusCode = 204 <;> cases hr : resp.readErr
          <;> cases hv : st.stats.raiseDebugVerbosity
          <;> simp [clientDo, logged, Except.isOk, Except.toBool, hc, hr, hv]

/-- Transport errors are contained. Whatever the schedule of messages, ticks and Terminate
calls and whatever dial, write, serialization, request-construction and POST outcomes come
with them, `clientUDP` and `clientHTTP` (once its ticker exists, the flush period being
positive) never stop on a missing connection or response, and a loop that has returned has
seen the terminate flag set. Every handled message or tick brings the loop back to its top
with the terminate flag as it was and one error log entry for each failure met, and from
the top the loop goes on to wait for the next one unless the flag is set. -/
theorem transport_errors_contained {μ : Type} (marshal : μ → Except String Bytes)
    (mb : List μ → Except String Bytes) :
    (∀ (stats : Stats μ) (dial : Except String Conn) (sched : List (UDPAction μ)),
      (clientUDP marshal sched (clientUDPInit stats dial).1).1.pc ≠ PC.crashed
      ∧ ((clientUDP marshal sched (clientUDPInit stats dial).1).1.pc = PC.exited →
          (clientUDP marshal sched (clientUDPInit stats dial).1).1.stats.terminate = true))
    ∧ (∀ (stats : Stats μ) (sched : List (HTTPAction μ)), 0 < stats.postInt →
      (clientHTTP mb sched (clientHTTPInit stats)).1.pc ≠ PC.crashed
      ∧ ((clientHTTP mb sched (clientHTTPInit stats)).1.pc = PC.exited →
          (clientHTTP mb sched (clientHTTPInit stats)).1.stats.terminate = true))
    ∧ (∀ (m : μ) (env : UDPEnv) (st : UDPLoop μ), st.pc = PC.waiting →
      (clientUDPStep marshal (UDPAction.recv m env) st).1.pc = PC.top
      ∧ (clientUDPStep marshal (UDPAction.recv m env) st).1.stats = st.stats
      ∧ received (clientUDPStep marshal (UDPAction.recv m env) st).2 = [m]
      ∧ logged (clientUDPStep marshal (UDPAction.recv m env) st).2
          = (if (marshal m).isOk then [] else ["marshal"])
            ++ (if st.conn.isSome then (if env.writeErr.isSome then ["write"] else [])
                else (if env.dial.isOk then [] else ["connect"])))
    ∧ (∀ (m : μ) (st : HTTPLoop μ), st.pc = PC.waiting →
      (clientHTTPStep mb (HTTPAction.recv m) st).1.pc = PC.top
      ∧ (clientHTTPStep mb (HTTPAction.recv m) st).1.stats.terminate = st.stats.terminate
      ∧ (clientHTTPStep mb (HTTPAction.recv m) st).1.stats.hBuffer = st.stats.hBuffer ++ [m])
    ∧ (∀ (env : TickEnv) (st : HTTPLoop μ), st.pc = PC.waiting →
      (clientHTTPStep mb (HTTPAction.tick env) st).1.pc = PC.top
      ∧ (clientHTTPStep mb (HTTPAction.tick env) st).1.stats.terminate = st.stats.terminate
      ∧ logged (clientHTTPStep mb (HTTPAction.tick env) st).2
          = (if (mb st.stats.hBuffer).isOk then
              (if env.newRequestErr.isSome then [""]
                else match env.doResult with
                  | .error _ => [""]
                  | .ok resp =>
                    if resp.StatusCode ≠ 204 ∧ resp.readErr.isSome then [""] else [])
            else [""]))
    ∧ (∀ (st : UDPLoop μ), st.pc = PC.top → st.stats.terminate = false →
      (clientUDPStep marshal UDPAction.check st).1.pc = PC.waiting)
    ∧ (∀ (st : HTTPLoop μ), st.pc = PC.top → st.stats.terminate = false →
      (clientHTTPStep mb HTTPAction.check st).1.pc = PC.waiting) := by
  refine ⟨?_, ?_, ?_, ?_, ?_, ?_, ?_⟩
  · intro stats dial sched
    apply clientUDP_not_crashed
    cases dial <;> simp [clientUDPInit]
  · intro stats sched hpos
    apply clientHTTP_not_crashed
    simp [clientHTTPInit, hpos]
  · intro m env st hw
    simp only [clientUDPStep, hw, if_true]
    exact ⟨(clientUDPHandle_spec marshal m env st).1, clientUDPHandle_logged marshal m env st⟩
  · intro m st hw
    simp [clientHTTPStep, hw]
  · intro env st hw
    simp only [clientHTTPStep, hw, if_true]
    exact ⟨(clientHTTPFlush_spec mb env st).1, clientHTTPFlush_logged mb env st⟩
  · intro st htop hterm
    simp [clientUDPStep, htop, hterm]
  · intro st htop hterm
    simp [clientHTTPStep, htop, hterm]

/-- An execution in which everything fails: the dial fails, two messages each meet no
connection and a failing re-dial; the loop is back at its top, and so it is after a
failing write and after a failing POST. -/
theorem transport_errors_contained_sample :
    (clientUDP sampleMarshal
        [UDPAction.check, UDPAction.recv 7 ⟨none, .error "unreachable"⟩,
          UDPAction.check, UDPAction.recv 8 ⟨none, .error "unreachable"⟩]
        (clientUDPInit sampleUDPStats (.error "unreachable")).1).1.pc ≠ PC.crashed
    ∧ (clientUDPStep sampleMarshal (UDPAction.recv 8 ⟨some "refused", .error "unreachable"⟩)
        { pc := PC.waiting, stats := sampleUDPStats, conn := some ⟨1⟩, deferred := [⟨1⟩] }).1.pc
      = PC.top
    ∧ (clientHTTPStep sampleMarshalBatch (HTTPAction.tick ⟨none, .error "timeout"⟩)
        { pc := PC.waiting, stats := sampleStats }).1.pc = PC.top :=
  ⟨((transport_errors_contained sampleMarshal sampleMarshalBatch).1 sampleUDPStats
      (.error "unreachable") _).1,
    ((transport_errors_contained sampleMarshal sampleMarshalBatch).2.2.1 8
      ⟨some "refused", .error "unreachable"⟩
      { pc := PC.waiting, stats := sampleUDPStats, conn := some ⟨1⟩, deferred := [⟨1⟩] } rfl).1,
    ((transport_errors_contained sampleMarshal sampleMarshalBatch).2.2.2.2.1
      ⟨none, .error "timeout"⟩ { pc := PC.waiting, stats := sampleStats } rfl).1⟩

/-- C6, at the failing input. A message that does not serialize reaches `clientUDP` while
a connection is held: the step logs the marshal error and then still calls `conn.Write`
with the nil payload, so an empty datagram goes to the backend; the step does more than
log the failure. `clientHTTP`, on the same failure, logs and leaves the select: nothing is
posted. -/
theorem clientUDP_marshal_failure_still_writes :
    (rejectingMarshal 0).isOk = false
    ∧ (clientUDPStep rejectingMarshal (UDPAction.recv 0 ⟨none, .ok ⟨2⟩⟩)
        { pc := PC.waiting, stats := sampleUDPStats, conn := some ⟨1⟩, deferred := [⟨1⟩] }).2
      = [Effect.recv 0, Effect.logError "marshal", Effect.write 0 [] true]
    ∧ (clientHTTPStep rejectingMarshalBatch (HTTPAction.tick ⟨none, .ok ⟨204, "", none⟩⟩)
        { pc := PC.waiting, stats := { sampleStats with hBuffer := [0] } }).2
      = [Effect.logError ""] := by
  decide

/-! ## Reconnecting -/

/-- C7, as stated, fails: the write of message 7 fails, message 8 is handled next, and no
dial is attempted in between (nor at all). -/
theorem reconnect_after_write_failure_counterexample :
    (clientUDP sampleMarshal
        [UDPAction.check, UDPAction.recv 7 ⟨some "connection refused", .ok ⟨2⟩⟩,
          UDPAction.check, UDPAction.recv 8 ⟨none, .ok ⟨3⟩⟩]
        (clientUDPInit sampleUDPStats (.ok ⟨1⟩)).1).2
      = [Effect.recv 7, Effect.write 7 [7] false, Effect.logError "write",
          Effect.recv 8, Effect.write 8 [8] true] := by
  decide

theorem clientUDP_written_sublist {μ : Type} (marshal : μ → Except String Bytes)
    (sched : List (UDPAction μ)) (st : UDPLoop μ) :
    (written (clientUDP marshal sched st).2).Sublist (received (clientUDP marshal sched st).2) := by
  induction sched generalizing st with
  | nil => simp [clientUDP, written, received]
  | cons a rest ih =>
    rw [clientUDP_cons, written_append, received_append]
    refine List.Sublist.append ?_ (ih _)
    cases a with
    | setTerminate => simp [clientUDPStep, written, received]
    | check =>
      have hcl : ∀ l : List Conn,
          written (l.map (fun c => (Effect.closeConn c.id : Effect μ))) = [] := by
        intro l
        induction l with
        | nil => rfl
        | cons c l ih2 => simpa [written] using ih2
      by_cases h1 : st.pc = PC.top <;> cases h2 : st.stats.terminate
        <;> simp [clientUDPStep, h1, h2, written, received, hcl]
    | recv m env =>
      by_cases h1 : st.pc = PC.waiting
      · obtain ⟨-, -, h3, h4, -⟩ := clientUDPHandle_spec marshal m env st
        simp only [clientUDPStep, h1, if_true]
        rw [h3]
        exact h4
      · simp [clientUDPStep, h1, written, received]

/-- C7, amended. In `clientUDP` a re-dial is attempted only while no connection is held,
that is after a failed dial: it is made when the next message is received, in place of
writing that message. A failed write is only logged: the connection is kept and nothing is
dialed. In every execution each received message is written at most once, so a message
whose send failed is never sent again. -/
theorem clientUDP_reconnect {μ : Type} (marshal : μ → Except String Bytes) :
    (∀ (m : μ) (env : UDPEnv) (st : UDPLoop μ), st.pc = PC.waiting → st.conn = none →
      written (clientUDPStep marshal (UDPAction.recv m env) st).2 = []
      ∧ (clientUDPStep marshal (UDPAction.recv m env) st).2.filter Effect.isDial
          = [Effect.dial env.dial.isOk]
      ∧ (clientUDPStep marshal (UDPAction.recv m env) st).1.conn = env.dial.toOption)
    ∧ (∀ (m : μ) (env : UDPEnv) (st : UDPLoop μ) (c : Conn), st.pc = PC.waiting →
        st.conn = some c →
      written (clientUDPStep marshal (UDPAction.recv m env) st).2 = [m]
      ∧ (clientUDPStep marshal (UDPAction.recv m env) st).2.filter Effect.isDial = []
      ∧ (clientUDPStep marshal (UDPAction.recv m env) st).1.conn = some c)
    ∧ (∀ (sched : List (UDPAction μ)) (st : UDPLoop μ),
      (written (clientUDP marshal sched st).2).Sublist
        (received (clientUDP marshal sched st).2)) := by
  refine ⟨?_, ?_, clientUDP_written_sublist marshal⟩
  · intro m env st hw hc
    obtain ⟨-, -, h3, -, h5, h6, -⟩ := clientUDPHandle_no_conn marshal m env st hc
    simp only [clientUDPStep, hw, if_true]
    exact ⟨h5, h6, h3⟩
  · intro m env st c hw hc
    obtain ⟨h1, -, h3, h4, -⟩ := clientUDPHandle_conn marshal m env st c hc
    simp only [clientUDPStep, hw, if_true]
    refine ⟨h3, h4, ?_⟩
    rw [h1]
    exact hc

/-- Witness for C7 amended: with no connection the message is dropped for a dial; with a
connection a failing write keeps the connection. -/
theorem clientUDP_reconnect_witness :
    (clientUDPStep sampleMarshal (UDPAction.recv 7 ⟨none, .ok ⟨2⟩⟩)
        { pc := PC.waiting, stats := sampleUDPStats, conn := none, deferred := [] }).2.filter
        Effect.isDial = [Effect.dial true]
    ∧ (clientUDPStep sampleMarshal (UDPAction.recv 7 ⟨some "refused", .ok ⟨2⟩⟩)
        { pc := PC.waiting, stats := sampleUDPStats, conn := some ⟨1⟩, deferred := [⟨1⟩] }).1.conn
      = some ⟨1⟩ :=
  ⟨((clientUDP_reconnect sampleMarshal).1 7 ⟨none, .ok ⟨2⟩⟩
      { pc := PC.waiting, stats := sampleUDPStats, conn := none, deferred := [] } rfl rfl).2.1,
    ((clientUDP_reconnect sampleMarshal).2.1 7 ⟨some "refused", .ok ⟨2⟩⟩
      { pc := PC.waiting, stats := sampleUDPStats, conn := some ⟨1⟩, deferred := [⟨1⟩] } ⟨1⟩
      rfl rfl).2.2⟩


/-! ## Terminate -/

/-- C8, as stated, fails: Terminate is called while each loop is blocked in its receive;
the message (for udp) and the tick (for http) that arrive afterwards are still written and
posted. -/
theorem write_after_terminate_counterexample :
    (clientUDP sampleMarshal [UDPAction.check, UDPAction.setTerminate]
        (clientUDPInit sampleUDPStats (.ok ⟨1⟩)).1).1.stats.terminate = true
    ∧ (clientUDP sampleMarshal [UDPAction.recv 7 ⟨none, .ok ⟨2⟩⟩]
        (clientUDP sampleMarshal [UDPAction.check, UDPAction.setTerminate]
          (clientUDPInit sampleUDPStats (.ok ⟨1⟩)).1).1).2
      = [Effect.recv 7, Effect.write 7 [7] true]
    ∧ (clientHTTP sampleMarshalBatch
        [HTTPAction.check, HTTPAction.recv 7, HTTPAction.check, HTTPAction.setTerminate]
        (clientHTTPInit sampleStats)).1.stats.terminate = true
    ∧ (clientHTTP sampleMarshalBatch [HTTPAction.tick ⟨none, .ok ⟨204, "", none⟩⟩]
        (clientHTTP sampleMarshalBatch
          [HTTPAction.check, HTTPAction.recv 7, HTTPAction.check, HTTPAction.setTerminate]
          (clientHTTPInit sampleStats)).1).2
      = [Effect.post [7] [7], Effect.closeBody] := by
  decide

theorem clientUDP_no_write_after_check {μ : Type} (marshal : μ → Except String Bytes)
    (sched : List (UDPAction μ)) (st : UDPLoop μ) (hterm : st.stats.terminate = true)
    (hpc : st.pc ≠ PC.waiting) :
    (clientUDP marshal sched st).2.countP Effect.isSendCall = 0 := by
  induction sched generalizing st with
  | nil => simp [clientUDP]
  | cons a rest ih =>
    obtain ⟨hnext, hkeep⟩ := clientUDPStep_pc marshal a st
    have hpc1 : (clientUDPStep marshal a st).1.pc ≠ PC.waiting := by
      rcases hnext with h1 | ⟨-, h0, -⟩ | ⟨-, -, h1⟩ | ⟨h0, -⟩
      · rw [h1]; exact hpc
      · rw [hterm] at h0; cases h0
      · rw [h1]; decide
      · exact absurd h0 hpc
    rw [clientUDP_cons, List.countP_append, ih _ (hkeep hterm) hpc1]
    cases a with
    | setTerminate => simp [clientUDPStep]
    | check =>
      by_cases h1 : st.pc = PC.top
      · simp [clientUDPStep, h1, hterm, Effect.isSendCall, List.countP_eq_zero]
      · simp [clientUDPStep, h1]
    | recv m env => simp [clientUDPStep, hpc]

theorem clientUDP_one_write_after_terminate {μ : Type} (marshal : μ → Except String Bytes)
    (sched : List (UDPAction μ)) (st : UDPLoop μ) (hterm : st.stats.terminate = true) :
    (clientUDP marshal sched st).2.countP Effect.isSendCall ≤ 1 := by
  induction sched generalizing st with
  | nil => simp [clientUDP]
  | cons a rest ih =>
    by_cases hpc : st.pc = PC.waiting
    · cases a with
      | setTerminate =>
        rw [clientUDP_cons, List.countP_append]
        have := ih (clientUDPStep marshal UDPAction.setTerminate st).1
          (by simp [clientUDPStep, Terminate])
        simpa [clientUDPStep] using this
      | check =>
        rw [clientUDP_cons, List.countP_append]
        have := ih (clientUDPStep marshal UDPAction.check st).1
          (by simpa [clientUDPStep, hpc] using hterm)
        simpa [clientUDPStep, hpc] using this
      | recv m env =>
        obtain ⟨h1, h2, -, -, h5⟩ := clientUDPHandle_spec marshal m env st
        have hstep : clientUDPStep marshal (UDPAction.recv m env) st
            = clientUDPHandle marshal m env st := by
          simp [clientUDPStep, hpc]
        rw [clientUDP_cons, List.countP_append, hstep,
          clientUDP_no_write_after_check marshal rest _ (by rw [h2]; exact hterm)
            (by rw [h1]; decide)]
        omega
    · rw [clientUDP_no_write_after_check marshal _ st hterm hpc]
      omega

theorem clientHTTP_no_write_after_check {μ : Type} (mb : List μ → Except String Bytes)
    (sched : List (HTTPAction μ)) (st : HTTPLoop μ) (hterm : st.stats.terminate = true)
    (hpc : st.pc ≠ PC.waiting) :
    (clientHTTP mb sched st).2.countP Effect.isSendCall = 0 := by
  induction sched generalizing st with
  | nil => simp [clientHTTP]
  | cons a rest ih =>
    obtain ⟨hnext, hkeep⟩ := clientHTTPStep_pc mb a st
    have hpc1 : (clientHTTPStep mb a st).1.pc ≠ PC.waiting := by
      rcases hnext with h1 | ⟨-, h0, -⟩ | ⟨-, -, h1⟩ | ⟨h0, -⟩
      · rw [h1]; exact hpc
      · rw [hterm] at h0; cases h0
      · rw [h1]; decide
      · exact absurd h0 hpc
    rw [clientHTTP_cons, List.countP_append, ih _ (hkeep hterm) hpc1]
    cases a with
    | setTerminate => simp [clientHTTPStep]
    | check =>
      by_cases h1 : st.pc = PC.top
      · simp [clientHTTPStep, h1, hterm, Effect.isSendCall]
      · simp [clientHTTPStep, h1]
    | recv m => simp [clientHTTPStep, hpc]
    | tick env => simp [clientHTTPStep, hpc]

theorem clientHTTP_one_write_after_terminate {μ : Type} (mb : List μ → Except String Bytes)
    (sched : List (HTTPAction μ)) (st : HTTPLoop μ) (hterm : st.stats.terminate = true) :
    (clientHTTP mb sched st).2.countP Effect.isSendCall ≤ 1 := by
  induction sched generalizing st with
  | nil => simp [clientHTTP]
  | cons a rest ih =>
    by_cases hpc : st.pc = PC.waiting
    · cases a with
      | setTerminate =>
        rw [clientHTTP_cons, List.countP_append]
        have := ih (clientHTTPStep mb HTTPAction.setTerminate st).1
          (by simp [clientHTTPStep, Terminate])
        simpa [clientHTTPStep] using this
      | check =>
        rw [clientHTTP_cons, List.countP_append]
        have := ih (clientHTTPStep mb HTTPAction.check st).1
          (by simpa [clientHTTPStep, hpc] using hterm)
        simpa [clientHTTPStep, hpc] using this
      | recv m =>
        have h0 := clientHTTP_no_write_after_check mb rest
          { pc := PC.top, stats := { st.stats with hBuffer := st.stats.hBuffer ++ [m] } }
          hterm (fun h => by cases h)
        rw [clientHTTP_cons, List.countP_append, clientHTTPStep_recv_waiting mb m st hpc, h0]
        simp [Effect.isSendCall]
      | tick env =>
        obtain ⟨h1, h2, h3⟩ := clientHTTPFlush_spec mb env st
        have hstep : clientHTTPStep mb (HTTPAction.tick env) st = clientHTTPFlush mb env st := by
          simp [clientHTTPStep, hpc]
        rw [clientHTTP_cons, List.countP_append, hstep,
          clientHTTP_no_write_after_check mb rest _ (by rw [h2]; exact hterm)
            (by rw [h1]; decide)]
        omega
    · rw [clientHTTP_no_write_after_check mb _ st hterm hpc]
      omega

/-- C8, amended. Once the terminate flag is set, each transport loop starts at most one
more send call (one `conn.Write` call in `clientUDP`, one `client.Do` call in
`clientHTTP`), namely for the message or tick of the iteration that had already passed its
flag test when the flag was set (receiving and handling are one action here, so `waiting`
stands for the whole iteration after the test); a loop that is at the top of its body or
has returned at that moment starts none. The bound is on calls: the one `client.Do` call
may send its POST more than once when the backend redirects it. -/
theorem writes_after_terminate {μ : Type} (marshal : μ → Except String Bytes)
    (mb : List μ → Except String Bytes) :
    (∀ (sched : List (UDPAction μ)) (st : UDPLoop μ), st.stats.terminate = true →
      (clientUDP marshal sched st).2.countP Effect.isSendCall ≤ 1
      ∧ (st.pc ≠ PC.waiting → (clientUDP marshal sched st).2.countP Effect.isSendCall = 0))
    ∧ (∀ (sched : List (HTTPAction μ)) (st : HTTPLoop μ), st.stats.terminate = true →
      (clientHTTP mb sched st).2.countP Effect.isSendCall ≤ 1
      ∧ (st.pc ≠ PC.waiting → (clientHTTP mb sched st).2.countP Effect.isSendCall = 0)) :=
  ⟨fun sched st hterm =>
      ⟨clientUDP_one_write_after_terminate marshal sched st hterm,
        clientUDP_no_write_after_check marshal sched st hterm⟩,
    fun sched st hterm =>
      ⟨clientHTTP_one_write_after_terminate mb sched st hterm,
        clientHTTP_no_write_after_check mb sched st hterm⟩⟩

/-- Witness for C8 amended: after Terminate three messages arrive, at most one
`conn.Write` call is made. -/
theorem writes_after_terminate_witness :
    (Terminate sampleUDPStats).terminate = true
    ∧ (clientUDP sampleMarshal
        [UDPAction.recv 7 ⟨none, .ok ⟨2⟩⟩, UDPAction.check, UDPAction.recv 8 ⟨none, .ok ⟨2⟩⟩,
          UDPAction.check, UDPAction.recv 9 ⟨none, .ok ⟨2⟩⟩]
        { pc := PC.waiting, stats := Terminate sampleUDPStats, conn := some ⟨1⟩,
          deferred := [⟨1⟩] }).2.countP Effect.isSendCall ≤ 1 :=
  ⟨rfl,
    ((writes_after_terminate sampleMarshal sampleMarshalBatch).1 _
      { pc := PC.waiting, stats := Terminate sampleUDPStats, conn := some ⟨1⟩, deferred := [⟨1⟩] }
      rfl).1⟩

end snitch

namespace files

/-! ## The directory scanner -/

theorem walk_no_error (visits : List Visit) (s : Scanner) (hok : ∀ v ∈ visits, v.err = none) :
    (walk visits s).2 = none
    ∧ (walk visits s).1.filesFound
        = s.filesFound ++ (visits.filter (Visit.kept s)).map (fun v => v.toFile false)
    ∧ (walk visits s).1.ignoredFiles
        = s.ignoredFiles ++ (visits.filter (Visit.dropped s)).map (fun v => v.toFile true)
    ∧ (walk visits s).1.errorsFound = s.errorsFound
    ∧ (walk visits s).1.fileRegexp = s.fileRegexp
    ∧ (walk visits s).1.minFileSize = s.minFileSize := by
  induction visits generalizing s with
  | nil => simp [walk]
  | cons v rest ih =>
    have hv : v.err = none := hok v (List.mem_cons_self _ _)
    have hrest : ∀ w ∈ rest, w.err = none := fun w hw => hok w (List.mem_cons_of_mem _ hw)
    have hsame : ∀ s1 : Scanner, s1.fileRegexp = s.fileRegexp → s1.minFileSize = s.minFileSize →
        Visit.kept s1 = Visit.kept s ∧ Visit.dropped s1 = Visit.dropped s := by
      intro s1 h1 h2
      constructor <;> funext w <;> simp [Visit.kept, Visit.dropped, h1, h2]
    by_cases hdir : v.info.IsDir = true
    · have hstep : walk (v :: rest) s = walk rest s := by
        simp [walk, visit, hv, hdir]
      rw [hstep]
      obtain ⟨i1, i2, i3, i4, i5, i6⟩ := ih s hrest
      refine ⟨i1, ?_, ?_, i4, i5, i6⟩
      · rw [i2]; simp [List.filter_cons, Visit.kept, hdir]
      · rw [i3]; simp [List.filter_cons, Visit.dropped, hdir]
    · by_cases hmatch : s.fileRegexp v.path = true
      · by_cases hsize : v.info.Size < s.minFileSize
        · have hstep : walk (v :: rest) s
              = walk rest { s with ignoredFiles := s.ignoredFiles ++ [v.toFile true] } := by
            simp [walk, visit, hv, hdir, hmatch, hsize, Visit.toFile]
          rw [hstep]
          obtain ⟨i1, i2, i3, i4, i5, i6⟩ := ih _ hrest
          obtain ⟨k1, k2⟩ := hsame { s with ignoredFiles := s.ignoredFiles ++ [v.toFile true] }
            rfl rfl
          rw [k1] at i2
          rw [k2] at i3
          refine ⟨i1, ?_, ?_, i4, i5, i6⟩
          · rw [i2]; simp [List.filter_cons, Visit.kept, hdir, hmatch, not_le.mpr hsize]
          · rw [i3]; simp [List.filter_cons, Visit.dropped, hdir, hmatch, not_le.mpr hsize]
        · have hstep : walk (v :: rest) s
              = walk rest { s with filesFound := s.filesFound ++ [v.toFile false] } := by
            simp [walk, visit, hv, hdir, hmatch, hsize, Visit.toFile]
          rw [hstep]
          obtain ⟨i1, i2, i3, i4, i5, i6⟩ := ih _ hrest
          obtain ⟨k1, k2⟩ := hsame { s with filesFound := s.filesFound ++ [v.toFile false] }
            rfl rfl
          rw [k1] at i2
          rw [k2] at i3
          refine ⟨i1, ?_, ?_, i4, i5, i6⟩
          · rw [i2]; simp [List.filter_cons, Visit.kept, hdir, hmatch, not_lt.mp hsize]
          · rw [i3]; simp [List.filter_cons, Visit.dropped, hdir, hmatch, not_lt.mp hsize]
      · have hstep : walk (v :: rest) s
            = walk rest { s with ignoredFiles := s.ignoredFiles ++ [v.toFile true] } := by
          simp [walk, visit, hv, hdir, hmatch, Visit.toFile]
        rw [hstep]
        obtain ⟨i1, i2, i3, i4, i5, i6⟩ := ih _ hrest
        obtain ⟨k1, k2⟩ := hsame { s with ignoredFiles := s.ignoredFiles ++ [v.toFile true] }
          rfl rfl
        rw [k1] at i2
        rw [k2] at i3
        refine ⟨i1, ?_, ?_, i4, i5, i6⟩
        · rw [i2]; simp [List.filter_cons, Visit.kept, hdir, hmatch]
        · rw [i3]; simp [List.filter_cons, Visit.dropped, hdir, hmatch]


theorem walk_config (visits : List Visit) (s : Scanner) :
    (walk visits s).1.fileRegexp = s.fileRegexp
    ∧ (walk visits s).1.minFileSize = s.minFileSize := by
  induction visits generalizing s with
  | nil => simp [walk]
  | cons v rest ih =>
    have hstep : (visit s v.path v.info v.err).1.fileRegexp = s.fileRegexp
        ∧ (visit s v.path v.info v.err).1.minFileSize = s.minFileSize := by
      unfold visit
      cases v.err with
      | some e => simp
      | none =>
        by_cases hdir : v.info.IsDir = true
        · simp [hdir]
        · by_cases hmatch : s.fileRegexp v.path = true
          · by_cases hsize : v.info.Size < s.minFileSize <;> simp [hdir, hmatch, hsize]
          · simp [hdir, hmatch]
    unfold walk
    cases hv : visit s v.path v.info v.err with
    | mk s1 e =>
      rw [hv] at hstep
      cases e with
      | some e => exact hstep
      | none =>
        obtain ⟨i1, i2⟩ := ih s1
        exact ⟨i1.trans hstep.1, i2.trans hstep.2⟩

/-- C10. Over error-free visits a scan puts every non-directory entry in exactly one of
Files and Ignored, in visit order: Files holds, with Ignored=false, the entries whose path
matches the regexp and whose size is at least minFileSize; Ignored holds, with
Ignored=true, the other non-directory entries; directories are in neither; and a scan
gives the same result whatever an earlier scan by the same scanner found. -/
theorem Scan_classifies (s : Scanner) (visits : List Visit) (hok : ∀ v ∈ visits, v.err = none) :
    (Scan s visits).1.Files
        = (visits.filter (fun v =>
            !v.info.IsDir && s.fileRegexp v.path && decide (s.minFileSize ≤ v.info.Size))).map
            (fun v => v.toFile false)
    ∧ (Scan s visits).1.Ignored
        = (visits.filter (fun v =>
            !v.info.IsDir && !(s.fileRegexp v.path && decide (s.minFileSize ≤ v.info.Size)))).map
            (fun v => v.toFile true)
    ∧ (Scan s visits).1.Files.length + (Scan s visits).1.Ignored.length
        = (visits.filter (fun v => !v.info.IsDir)).length
    ∧ (Scan s visits).1.Errors = []
    ∧ (Scan s visits).2.1 = none
    ∧ ∀ earlier : List Visit, (Scan (Scan s earlier).2.2 visits).1 = (Scan s visits).1 := by
  have key : ∀ s0 : Scanner,
      (Scan s0 visits).1.Files = (visits.filter (Visit.kept s0)).map (fun v => v.toFile false)
      ∧ (Scan s0 visits).1.Ignored
          = (visits.filter (Visit.dropped s0)).map (fun v => v.toFile true)
      ∧ (Scan s0 visits).1.Errors = [] ∧ (Scan s0 visits).2.1 = none := by
    intro s0
    obtain ⟨i1, i2, i3, i4, -, -⟩ := walk_no_error visits
      { s0 with filesFound := [], ignoredFiles := [], errorsFound := [] } hok
    refine ⟨?_, ?_, ?_, ?_⟩
    · simpa [Scan] using i2
    · simpa [Scan] using i3
    · simpa [Scan] using i4
    · simpa [Scan] using i1
  obtain ⟨k1, k2, k3, k4⟩ := key s
  refine ⟨k1, k2, ?_, k3, k4, ?_⟩
  · rw [k1, k2, List.length_map, List.length_map]
    clear k1 k2 k3 k4 key hok
    induction visits with
    | nil => rfl
    | cons v rest ih =>
      simp only [List.filter_cons]
      by_cases hdir : v.info.IsDir = true <;> by_cases hmatch : s.fileRegexp v.path = true
        <;> by_cases hsize : s.minFileSize ≤ v.info.Size
        <;> simp [Visit.kept, Visit.dropped, hdir, hmatch, hsize]
        <;> simp [Visit.kept, Visit.dropped] at ih <;> omega
  · intro earlier
    obtain ⟨e1, e2, e3, -⟩ := key (Scan s earlier).2.2
    obtain ⟨c1, c2⟩ := walk_config earlier
      { s with filesFound := [], ignoredFiles := [], errorsFound := [] }
    have c3 : (Scan s earlier).2.2.fileRegexp = s.fileRegexp := c1
    have c4 : (Scan s earlier).2.2.minFileSize = s.minFileSize := c2
    have hk : Visit.kept (Scan s earlier).2.2 = Visit.kept s := by
      funext w; simp only [Visit.kept, c3, c4]
    have hd : Visit.dropped (Scan s earlier).2.2 = Visit.dropped s := by
      funext w; simp only [Visit.dropped, c3, c4]
    rw [hk] at e1
    rw [hd] at e2
    cases h1 : (Scan (Scan s earlier).2.2 visits).1
    cases h2 : (Scan s visits).1
    rw [h1] at e1 e2 e3
    rw [h2] at k1 k2 k3
    simp only at e1 e2 e3 k1 k2 k3
    rw [e1, e2, e3, k1, k2, k3]

/-- Witness for C10: the sample walk after an earlier scan of the same scanner. -/
theorem Scan_classifies_witness :
    (∀ v ∈ sampleVisits, v.err = none)
    ∧ (Scan sampleScanner sampleVisits).1.Files
        = [⟨"a.log", "/var/a.log", 120, 1, false⟩]
    ∧ (Scan sampleScanner sampleVisits).1.Ignored
        = [⟨"b.log", "/var/b.log", 3, 2, true⟩, ⟨"c.txt", "/var/c.txt", 500, 3, true⟩]
    ∧ (Scan (Scan sampleScanner sampleVisits).2.2 sampleVisits).1
        = (Scan sampleScanner sampleVisits).1 :=
  ⟨by decide, by decide, by decide,
    (Scan_classifies sampleScanner sampleVisits (by decide)).2.2.2.2.2 sampleVisits⟩

end files
